import Mathlib

/-!
# dataux: Elasticsearch handler (`pkg/backends/elasticsearch/es.go`)

A shallow embedding of the schema discovery and the command dispatch of the
Elasticsearch handler, and the properties of its specification that are
settled on it.

Go maps are association lists.  The order of a list is the order in which one
run of `range` visits the map, so a statement over every list covers every
traversal order.  The JSON helper of the `gou` library reads a key as a path, so
inside `for field := range jh` the value `jh.Helper(field)` is looked up from the
whole map `jh`; it is the value stored under `field` when `field` has none of the
path syntax.
-/

namespace Dataux

set_option linter.unusedVariables false

/-! ## JSON values and `gou.JsonHelper` -/

/-- A decoded JSON value, as `gou.JsonHelper` holds it in `map[string]interface{}`.
`null` is the JSON null (a nil interface), `str` a JSON string, `other` a number or
a boolean, `arr` a JSON array and `obj` a JSON object.  `other` and `arr` carry the
text the library coerces the value to. -/
inductive Json where
  | null
  | str (s : String)
  | other (coerced : String)
  | arr (items : List Json) (coerced : String)
  | obj (entries : List (String × Json))

/-- The Go type `gou.JsonHelper`, a `map[string]interface{}`. -/
abbrev JsonHelper := List (String × Json)

/-- The parts of a key path, as `JsonHelper.Get` splits it: on `/` when the path
has one (without the empty first part of a path that starts with `/`), and on `.`
otherwise. -/
def pathParts (n : String) : List String :=
  if '/' ∈ n.data then
    let parts := (n.data.splitOn '/').map String.mk
    if n.data.head? = some '/' then parts.tail else parts
  else (n.data.splitOn '.').map String.mk

/-- Whether a part of a path ends in an index suffix, `[]` or `[i]`. -/
def hasIndexSuffix (part : String) : Prop :=
  part.data.getLast? = some ']' ∧ '[' ∈ part.data

instance (part : String) : Decidable (hasIndexSuffix part) := by
  unfold hasIndexSuffix
  infer_instance

/-- The key that a part of a path names: the part without its index suffix. -/
def partName (part : String) : String :=
  if hasIndexSuffix part then String.mk (part.data.takeWhile fun c => c != '[') else part

/-- How a part of a path ends: with no index suffix, with `[]` (the list itself), or
with `[i]` (entry `i` of the list). -/
inductive Suffix where
  | plain
  | list
  | entry (idx : Nat)
  deriving DecidableEq, Repr

/-- The index suffix of a part of a path.  A suffix whose index is no number is
dropped with the name kept, as in the library. -/
def partSuffix (part : String) : Suffix :=
  if hasIndexSuffix part then
    if "[]".data <:+ part.data then .list
    else
      match (String.mk ((part.data.dropWhile fun c => c != '[').drop 1).dropLast).toNat? with
      | some idx => .entry idx
      | none => .plain
  else .plain

/-- The library function `jsonEntry`: the entry of a mapping under a name; a
string, number, boolean or list is handed on as it is, and nil has no entry. -/
def jsonEntry (name : String) : Json → Option Json
  | .obj m => m.lookup name
  | .null => none
  | v => some v

/-- What one part of a path leaves: the result of the whole walk (`done`), or the
value from which the next part is read (`next`). -/
inductive Step where
  | done (v : Option Json)
  | next (root : Json)

/-- The index suffix of a part, applied to the value `r` found under its name: `[]`
ends the walk with the list, `[i]` goes on from entry `i` of the list (and finds
nothing when there is no such entry), no suffix goes on from `r`. -/
def suffixStep (part : String) (r : Json) : Step :=
  match partSuffix part with
  | .plain => .next r
  | .list =>
    match r with
    | .arr items c => .done (some (.arr items c))
    | _ => .done none
  | .entry idx =>
    match r with
    | .null => .next .null
    | .arr items _ =>
      match items[idx]? with
      | some e => .next e
      | none => .done none
    | _ => .done none

/-- The loop of `JsonHelper.Get` over the parts of the path `n`, at the part `part`
whose name was looked up with the result `found`, with `parts` still to come.  When
a name is not found the whole path is read as one key of the map. -/
def JsonHelper.walk (j : JsonHelper) (n : String) :
    Option Json → String → List String → Option Json
  | none, _, _ => j.lookup n
  | some r, part, parts =>
    match suffixStep part r with
    | .done v => v
    | .next root =>
      match parts with
      | [] => some root
      | p :: ps => JsonHelper.walk j n (jsonEntry (partName p) root) p ps

/-- The library call `JsonHelper.Get`: the value found by walking the key path `n`
(`a.b`, `a/b`, `a.b[1]`, `a.b[]`) from the map.  For a key without `.`, `/`, `[`
and `]` that is the value stored under the key. -/
def JsonHelper.Get (j : JsonHelper) (n : String) : Option Json :=
  match pathParts n with
  | [] => none
  | part :: parts => j.walk n (j.lookup (partName part)) part parts

/-- The library call `JsonHelper.Helper`: the mapping found under the path `n`, and
the nil (empty) helper when nothing is found or what is found is no mapping. -/
def JsonHelper.Helper (j : JsonHelper) (n : String) : JsonHelper :=
  match j.Get n with
  | some (Json.obj m) => m
  | _ => []

/-- The helper of one value of the map: the mapping it is, or the nil helper. -/
def Json.helper : Json → JsonHelper
  | Json.obj m => m
  | _ => []

/-- The library call `JsonHelper.String` (named `StringAt` here, `String` being the
type): the string found under `n`, the coerced text of a value that is no string,
and `""` when nothing or nil is found.  A mapping is coerced to its printed form,
which starts with `map[`. -/
def JsonHelper.StringAt (j : JsonHelper) (n : String) : String :=
  match j.Get n with
  | some (Json.str s) => s
  | some (Json.other c) => c
  | some (Json.arr _ c) => c
  | some (Json.obj _) => "map[...]"
  | some Json.null => ""
  | none => ""

/-- The library call `JsonHelper.Keys`. -/
def JsonHelper.Keys (j : JsonHelper) : List String :=
  j.map Prod.fst

/-- A value `v` is `root` or lies somewhere inside it. -/
inductive Json.Inside : Json → Json → Prop where
  | here (v : Json) : Json.Inside v v
  | field (k : String) (c : Json) (m : List (String × Json)) (v : Json)
      (hmem : (k, c) ∈ m) (h : Json.Inside v c) : Json.Inside v (.obj m)
  | item (e : Json) (items : List Json) (s : String) (v : Json)
      (hmem : e ∈ items) (h : Json.Inside v e) : Json.Inside v (.arr items s)

/-- A value `v` lies inside the map `j`: in the value of one of its entries. -/
def JsonHelper.Holds (j : JsonHelper) (v : Json) : Prop :=
  ∃ k c, (k, c) ∈ j ∧ Json.Inside v c

/-! ## The schema model (`pkg/models`) -/

/-- The value types of `qlbridge/value` that the normalized type of a Field
ranges over. -/
inductive ValueType where
  | UnknownType
  | StringType
  | NumberType
  | IntType
  | BoolType
  | TimeType
  deriving DecidableEq, Repr

/-- The provenance text of a Field: a literal, or the JSON serialization
`json.Marshal(h)` of a native descriptor, kept symbolic. -/
inductive Descr where
  | text (s : String)
  | marshal (h : JsonHelper)

/-- A column: `models.Field`. -/
structure Field where
  Name : String
  ValType : ValueType
  Length : Nat
  Description : Descr

/-- The call `models.NewField(name, valType, size, description)`. -/
def NewField (name : String) (valType : ValueType) (size : Nat) (description : Descr) : Field :=
  { Name := name, ValType := valType, Length := size, Description := description }

/-- One cell of a descriptive row, an `interface{}` of the Go slice: a string,
`nil`, or the bytes `jb` of a serialized descriptor. -/
inductive Cell where
  | str (s : String)
  | null
  | json (h : JsonHelper)

/-- A table: `models.Table`, with its ordered Fields and its descriptive rows. -/
structure Table where
  Name : String
  Fields : List Field
  DescribeValues : List (List Cell)

/-- Modelled from the spec: `models.NewTable`, absent from the sources; a named
table with no Field and no descriptive row yet. -/
def NewTable (table : String) : Table :=
  { Name := table, Fields := [], DescribeValues := [] }

/-- Modelled from the spec: `models.Table.AddField`, absent from the sources; the
Fields of a table are an ordered sequence and a new Field goes to its end. -/
def Table.AddField (tbl : Table) (fld : Field) : Table :=
  { tbl with Fields := tbl.Fields ++ [fld] }

/-- Modelled from the spec: `models.Table.AddValues`, absent from the sources; the
descriptive rows are an ordered sequence and a new row goes to its end. -/
def Table.AddValues (tbl : Table) (values : List Cell) : Table :=
  { tbl with DescribeValues := tbl.DescribeValues ++ [values] }

/-- The literal descriptor of the default case of `buildEsFields`. -/
def objectDescr : String := "\x7b\"type\":\"object\"\x7d"

/-! ## Schema discovery -/

theorem lookup_mem {α : Type} (l : List (String × α)) (k : String) (v : α)
    (h : l.lookup k = some v) : (k, v) ∈ l := by
  induction l with
  | nil => simp at h
  | cons p rest ih =>
    obtain ⟨k1, v1⟩ := p
    rw [List.lookup_cons] at h
    by_cases hk : k = k1
    · subst hk
      simp at h
      simp [h]
    · have : (k == k1) = false := by simpa using hk
      rw [this] at h
      exact List.mem_cons_of_mem _ (ih h)

theorem Json.Inside.inside_trans (v w root : Json) (h1 : Json.Inside v w) (h2 : Json.Inside w root) :
    Json.Inside v root := by
  induction h2 with
  | here => exact h1
  | field k c m w hmem h ih => exact Json.Inside.field k c m v hmem (ih h1)
  | item e items s w hmem h ih => exact Json.Inside.item e items s v hmem (ih h1)

/-- A value inside another is no larger. -/
theorem Json.Inside.sizeOf_le (v root : Json) (h : Json.Inside v root) :
    sizeOf v ≤ sizeOf root := by
  induction h with
  | here => exact Nat.le_refl _
  | field k c m v hmem h ih =>
    have h1 := List.sizeOf_lt_of_mem hmem
    simp only [Prod.mk.sizeOf_spec, Json.obj.sizeOf_spec] at h1 ⊢
    omega
  | item e items s v hmem h ih =>
    have h1 := List.sizeOf_lt_of_mem hmem
    simp only [Json.arr.sizeOf_spec] at h1 ⊢
    omega

/-- A value inside a map is smaller than the map. -/
theorem JsonHelper.Holds.sizeOf_lt (j : JsonHelper) (v : Json) (h : j.Holds v) :
    sizeOf v < sizeOf j := by
  obtain ⟨k, c, hmem, hin⟩ := h
  have h1 := List.sizeOf_lt_of_mem hmem
  have h2 := hin.sizeOf_le
  simp only [Prod.mk.sizeOf_spec] at h1
  omega

theorem JsonHelper.Holds.holds_trans (j m : JsonHelper) (v : Json) (h1 : j.Holds (.obj m))
    (h2 : m.Holds v) : j.Holds v := by
  obtain ⟨k, c, hmem, hin⟩ := h1
  obtain ⟨k2, c2, hmem2, hin2⟩ := h2
  exact ⟨k, c, hmem, Json.Inside.inside_trans _ _ _ (Json.Inside.field k2 c2 m v hmem2 hin2) hin⟩

theorem JsonHelper.Holds.lookup (j : JsonHelper) (n : String) (v : Json)
    (h : j.lookup n = some v) : j.Holds v :=
  ⟨n, v, lookup_mem j n v h, Json.Inside.here v⟩

theorem jsonEntry_holds (j : JsonHelper) (name : String) (root r : Json) (h : j.Holds root)
    (he : jsonEntry name root = some r) : j.Holds r := by
  cases root with
  | obj m => exact JsonHelper.Holds.holds_trans j m r h (JsonHelper.Holds.lookup m name r he)
  | null => simp [jsonEntry] at he
  | str s => simp only [jsonEntry, Option.some.injEq] at he; rw [← he]; exact h
  | other c => simp only [jsonEntry, Option.some.injEq] at he; rw [← he]; exact h
  | arr items c => simp only [jsonEntry, Option.some.injEq] at he; rw [← he]; exact h

theorem suffixStep_holds (j : JsonHelper) (part : String) (r : Json) (h : j.Holds r) :
    (∀ v, suffixStep part r = .done (some v) → j.Holds v) ∧
    (∀ root, suffixStep part r = .next root → j.Holds root) := by
  unfold suffixStep
  cases partSuffix part with
  | plain =>
    refine ⟨fun v hv => by simp at hv, fun root hr => ?_⟩
    simp only [Step.next.injEq] at hr
    rw [← hr]; exact h
  | list =>
    cases r with
    | arr items c =>
      refine ⟨fun v hv => ?_, fun root hr => by simp at hr⟩
      simp only [Step.done.injEq, Option.some.injEq] at hv
      rw [← hv]; exact h
    | null => exact ⟨fun v hv => by simp at hv, fun root hr => by simp at hr⟩
    | str s => exact ⟨fun v hv => by simp at hv, fun root hr => by simp at hr⟩
    | other c => exact ⟨fun v hv => by simp at hv, fun root hr => by simp at hr⟩
    | obj m => exact ⟨fun v hv => by simp at hv, fun root hr => by simp at hr⟩
  | entry idx =>
    cases r with
    | arr items c =>
      simp only
      cases hi : items[idx]? with
      | none => exact ⟨fun v hv => by simp at hv, fun root hr => by simp at hr⟩
      | some e =>
        refine ⟨fun v hv => by simp at hv, fun root hr => ?_⟩
        simp only [Step.next.injEq] at hr
        rw [← hr]
        obtain ⟨k, c0, hmem, hin⟩ := h
        have hm : e ∈ items := by
          rw [List.getElem?_eq_some_iff] at hi
          obtain ⟨hlt, he⟩ := hi
          rw [← he]
          exact List.getElem_mem hlt
        exact ⟨k, c0, hmem,
          Json.Inside.inside_trans _ _ _ (Json.Inside.item e items c e hm (Json.Inside.here e)) hin⟩
    | null =>
      refine ⟨fun v hv => by simp at hv, fun root hr => ?_⟩
      simp only [Step.next.injEq] at hr
      rw [← hr]; exact h
    | str s => exact ⟨fun v hv => by simp at hv, fun root hr => by simp at hr⟩
    | other c => exact ⟨fun v hv => by simp at hv, fun root hr => by simp at hr⟩
    | obj m => exact ⟨fun v hv => by simp at hv, fun root hr => by simp at hr⟩

theorem JsonHelper.walk_holds (j : JsonHelper) (n : String) (parts : List String) :
    ∀ (found : Option Json) (part : String) (v : Json),
      (∀ r, found = some r → j.Holds r) → j.walk n found part parts = some v → j.Holds v := by
  induction parts with
  | nil =>
    intro found part v hf hw
    cases found with
    | none => exact JsonHelper.Holds.lookup j n v (by simpa [JsonHelper.walk] using hw)
    | some r =>
      have hs := suffixStep_holds j part r (hf r rfl)
      rw [JsonHelper.walk] at hw
      cases hstep : suffixStep part r with
      | done w =>
        rw [hstep] at hw
        simp only at hw
        rw [hw] at hstep
        exact hs.1 v hstep
      | next root =>
        rw [hstep] at hw
        simp only [Option.some.injEq] at hw
        rw [← hw]
        exact hs.2 root hstep
  | cons p ps ih =>
    intro found part v hf hw
    cases found with
    | none => exact JsonHelper.Holds.lookup j n v (by simpa [JsonHelper.walk] using hw)
    | some r =>
      have hs := suffixStep_holds j part r (hf r rfl)
      rw [JsonHelper.walk] at hw
      cases hstep : suffixStep part r with
      | done w =>
        rw [hstep] at hw
        simp only at hw
        rw [hw] at hstep
        exact hs.1 v hstep
      | next root =>
        rw [hstep] at hw
        simp only at hw
        exact ih (jsonEntry (partName p) root) p v
          (fun r2 hr2 => jsonEntry_holds j (partName p) root r2 (hs.2 root hstep) hr2) hw

/-- What `Get` finds lies inside the map. -/
theorem JsonHelper.Get_holds (j : JsonHelper) (n : String) (v : Json)
    (h : j.Get n = some v) : j.Holds v := by
  unfold JsonHelper.Get at h
  cases hp : pathParts n with
  | nil => rw [hp] at h; simp at h
  | cons part parts =>
    rw [hp] at h
    exact JsonHelper.walk_holds j n parts _ part v
      (fun r hr => JsonHelper.Holds.lookup j (partName part) r hr) h

/-- A helper found under a path is empty or lies inside the map. -/
theorem JsonHelper.Helper_holds (j : JsonHelper) (n : String) :
    j.Helper n = [] ∨ j.Holds (.obj (j.Helper n)) := by
  unfold JsonHelper.Helper
  cases hg : j.Get n with
  | none => exact Or.inl rfl
  | some v =>
    cases v with
    | obj m => exact Or.inr (JsonHelper.Get_holds j n _ hg)
    | null => exact Or.inl rfl
    | str s => exact Or.inl rfl
    | other c => exact Or.inl rfl
    | arr items c => exact Or.inl rfl

/-- A non-empty helper found under a path is smaller than the map it is read from. -/
theorem JsonHelper.sizeOf_Helper_lt (j : JsonHelper) (n : String)
    (h : (j.Helper n).length > 0) : sizeOf (j.Helper n) < sizeOf j := by
  rcases JsonHelper.Helper_holds j n with h0 | h1
  · rw [h0] at h; simp at h
  · have := h1.sizeOf_lt
    simp only [Json.obj.sizeOf_spec] at this
    omega

/-- The helper found under a path is no larger than the map it is read from. -/
theorem JsonHelper.sizeOf_Helper_le (j : JsonHelper) (n : String) :
    sizeOf (j.Helper n) ≤ sizeOf j := by
  rcases JsonHelper.Helper_holds j n with h0 | h1
  · rw [h0]
    cases j
    · simp
    · simp
      omega
  · have := h1.sizeOf_lt
    simp only [Json.obj.sizeOf_spec] at this
    omega

/-- The helper of a value is no larger than the value. -/
theorem Json.sizeOf_helper_le (v : Json) : sizeOf v.helper ≤ sizeOf v := by
  cases v <;> simp [Json.helper]
  omega

/-- The loop `for field := range jh` of `buildEsFields` (es.go 476-522), with `keys`
the keys of `jh` still to visit. -/
def buildEsFieldsRange (tbl : Table) (jh : JsonHelper) (keys : List String) (pfx : String)
    (depth : Nat) : Table :=
  match keys with
  | [] => tbl
  | field :: rest =>
    let h := jh.Helper field
    if hlen : h.length > 0 then
      let jb := h
      let fieldName := pfx ++ field
      let esType := h.StringAt "type"
      if esType = "boolean" then
        let tbl := tbl.AddValues [.str fieldName, .str esType, .str "YES", .str "", .null, .json jb]
        let fld := NewField fieldName .BoolType 1 (.marshal jb)
        buildEsFieldsRange (tbl.AddField fld) jh rest pfx depth
      else if esType = "string" then
        let tbl := tbl.AddValues [.str fieldName, .str esType, .str "YES", .str "", .null, .json jb]
        let fld := NewField fieldName .StringType 512 (.marshal jb)
        buildEsFieldsRange (tbl.AddField fld) jh rest pfx depth
      else if esType = "date" then
        let tbl := tbl.AddValues [.str fieldName, .str esType, .str "YES", .str "", .null, .json jb]
        let fld := NewField fieldName .TimeType 4 (.marshal jb)
        buildEsFieldsRange (tbl.AddField fld) jh rest pfx depth
      else if esType = "int" ∨ esType = "long" ∨ esType = "integer" then
        let tbl := tbl.AddValues [.str fieldName, .str esType, .str "YES", .str "", .null, .json jb]
        let fld := NewField fieldName .IntType 8 (.marshal jb)
        buildEsFieldsRange (tbl.AddField fld) jh rest pfx depth
      else if esType = "nested" then
        let tbl := tbl.AddValues [.str fieldName, .str esType, .str "YES", .str "", .null, .json jb]
        let fld := NewField fieldName .StringType 2000 (.marshal jb)
        buildEsFieldsRange (tbl.AddField fld) jh rest pfx depth
      else
        let tbl := tbl.AddValues
          [.str fieldName, .str "object", .str "YES", .str "", .null, .str objectDescr]
        let fld := NewField fieldName .StringType 2000 (.text objectDescr)
        let props := h.Helper "properties"
        let tbl := if props.length > 0 then
            buildEsFieldsRange tbl props props.Keys (fieldName ++ ".") (depth + 1)
          else tbl
        buildEsFieldsRange (tbl.AddField fld) jh rest pfx depth
    else
      buildEsFieldsRange tbl jh rest pfx depth
termination_by (sizeOf jh, keys.length)
decreasing_by
  all_goals simp_wf
  all_goals first
    | exact Prod.Lex.right _ (Nat.lt_succ_self _)
    | exact Prod.Lex.left _ _ (Nat.lt_of_le_of_lt (JsonHelper.sizeOf_Helper_le _ _)
        (JsonHelper.sizeOf_Helper_lt _ _ hlen))

/-- The function `buildEsFields` (es.go 475-523): the loop over all keys of `jh`.
The table is passed and returned; `s` of the source is unused there and left out. -/
def buildEsFields (tbl : Table) (jh : JsonHelper) (pfx : String) (depth : Nat) : Table :=
  buildEsFieldsRange tbl jh jh.Keys pfx depth

/-- The pseudo-columns that `loadTableSchema` gives every table (es.go 461-467). -/
def seedPseudoColumns (tbl : Table) : Table :=
  let tbl := tbl.AddField (NewField "_id" .StringType 24 (.text "AUTOGEN"))
  let tbl := tbl.AddField (NewField "type" .StringType 24 (.text "tbd"))
  let tbl := tbl.AddField
    (NewField "_score" .NumberType 24 (.text "Created per Search By Elasticsearch"))
  let tbl := tbl.AddValues
    [.str "_id", .str "string", .str "NO", .str "PRI", .str "AUTOGEN", .str ""]
  let tbl := tbl.AddValues [.str "type", .str "string", .str "NO", .str "", .null, .str "tbd"]
  tbl.AddValues
    [.str "_score", .str "float", .str "NO", .str "", .null, .str "Created per search"]

/-- Discovery, the part of `loadTableSchema` that fills a new table (es.go 461-469):
the pseudo-columns, then `buildEsFields` with the empty prefix and depth 0. -/
def discover (tbl : Table) (jh : JsonHelper) : Table :=
  buildEsFields (seedPseudoColumns tbl) jh "" 0

/-! ## Strings, errors and outcomes -/

/-- The call `strings.Contains`, as a decidable proposition. -/
def Contains (s substr : String) : Prop :=
  substr.data <:+: s.data

instance (s substr : String) : Decidable (Contains s substr) := by
  unfold Contains
  infer_instance

/-- A Go `error` value: an error with a message (`fmt.Errorf`, or what an external
call returned), or a `mysql.SqlError` with its code and message (`mysql.NewError`,
`mysql.NewDefaultError`). -/
inductive GoError where
  | errorString (msg : String)
  | SqlError (code : Nat) (msg : String)
  deriving DecidableEq, Repr

/-- The MySQL error code `ER_NO_DB_ERROR`. -/
def ER_NO_DB_ERROR : Nat := 1046

/-- The MySQL error code `ER_UNKNOWN_ERROR`. -/
def ER_UNKNOWN_ERROR : Nat := 1105

/-- How a call comes back: with a value, with a Go `error`, or with a fault (a Go
`panic` carrying the printed form of its value). -/
inductive Ret (α : Type) where
  | ok (a : α)
  | error (e : GoError)
  | fault (e : String)

/-- The printed form of the runtime fault of indexing an empty slice at 0. -/
def indexOutOfRange : String := "runtime error: index out of range"

/-! ## Statements, the connection and the environment -/

/-- One table source of a SELECT: `expr.SqlSource`. -/
structure SqlSource where
  Name : String
  deriving DecidableEq, Repr

/-- A parsed SELECT: `expr.SqlSelect`.  `SysVariable` is what the method
`SysVariable()` of the parser library returns for the statement; `Body` stands for
the parts that only the translator reads (columns, predicate, limit). -/
structure SqlSelect where
  SysVariable : String
  From : List SqlSource
  Body : String
  deriving DecidableEq, Repr

/-- A parsed statement, by its concrete Go type.  For a DESCRIBE, `Nested` is the
keyword of the nested statement when there is one, and `NestedIsSelect` says
whether that keyword is `lex.TokenSelect`.  `other` is any other statement type,
with the name `%T` prints. -/
inductive Stmt where
  | SqlDescribe (Identity : String) (Nested : Bool) (NestedIsSelect : Bool)
  | SqlSelect (req : SqlSelect)
  | SqlShow (Identity : String) (From : String)
  | other (typeName : String)
  deriving DecidableEq, Repr

/-- A result set handed to the connection: `mysql.Resultset`. -/
structure Resultset where
  Fields : List String
  Rows : List (List Cell)

/-- Modelled from the spec: `models.Table.DescribeResultset`, absent from the
sources; the fixed six columns, and one row per descriptive row of the table, in
their order. -/
def Table.DescribeResultset (tbl : Table) : Resultset :=
  { Fields := ["Field", "Type", "Null", "Key", "Default", "Extra"],
    Rows := tbl.DescribeValues }

/-- What the reply of `gou.JsonHelperHttp` is: a helper and an optional error. -/
structure HttpReply where
  jh : JsonHelper
  err : Option GoError

/-- The collaborators of the handler that are outside `es.go`: the SQL parser, the
backend over HTTP, the query translator and result writer of the package, the
result-set builders of the protocol library, the transport, the `fmt` verbs, and
the case table of the Go library (`unicode.ToLower`, the lower case of one
character, over all of Unicode). -/
structure Env where
  ParseSql : String → Ret Stmt
  JsonHelperHttp : String → HttpReply
  Query : Table → SqlSelect → Ret Json
  WriteHeaders : Table → SqlSelect → Json → Ret Resultset
  Finalize : Resultset → Json → Ret Resultset
  BuildSimpleSelectResult : Nat → String → Ret Resultset
  BuildSimpleShowResultset : List String → String → Ret Resultset
  connErr : Option GoError
  goSyntax : Stmt → String
  CommandString : Nat → String
  unicodeToLower : Char → Char

/-- The call `strings.ToLower`: the text with every character mapped to its lower
case by `unicode.ToLower`. -/
def ToLower (env : Env) (s : String) : String :=
  String.mk (s.data.map env.unicodeToLower)

/-- What the handler did to the outside, in order. -/
inductive Effect where
  | httpGet (url : String)
  | esQuery (table : String)
  | WriteOK
  | WriteResultset (r : Resultset)
  | Close

/-- A virtual database: `models.Schema`.  `Tables` is the table cache. -/
structure Schema where
  Db : String
  Address : String
  BackendType : String
  TableNames : List String
  Tables : List (String × Table)

/-- Modelled from the spec: `models.Schema.ChooseBackend`, absent from the sources;
one backend address of the schema, the configured one. -/
def Schema.ChooseBackend (s : Schema) : String :=
  s.Address

/-- The configuration, `models.Config`, as far as the handler reads it. -/
structure Config where
  SupressRecover : Bool

/-- The state of a session: `HandlerElasticsearch` with its shared part.  The
pointer `schema` is the key of the active schema in `schemas` (`none` is nil), and
`effects` records what the session did to the backend and the connection. -/
structure Handler where
  conf : Config
  schemas : List (String × Schema)
  schema : Option String
  effects : List Effect

/-- The schema `m.schema` points to. -/
def Handler.active (m : Handler) : Option Schema :=
  m.schema.bind fun k => m.schemas.lookup k

/-- The assignment `m[k] = v` of a Go map. -/
def mapSet {α : Type} (m : List (String × α)) (k : String) (v : α) : List (String × α) :=
  (k, v) :: m.filter fun p => p.1 != k

/-- The assignment `m.schema.Tables[table] = tbl`, on the schema with key `k`. -/
def Handler.cacheTable (m : Handler) (k table : String) (tbl : Table) : Handler :=
  { m with schemas := m.schemas.map fun p =>
      if p.1 = k then (p.1, { p.2 with Tables := mapSet p.2.Tables table tbl }) else p }

/-- Adds one effect to the record. -/
def Handler.effect (m : Handler) (e : Effect) : Handler :=
  { m with effects := m.effects ++ [e] }

/-! ## The handler -/

/-- The result of a write on the connection. -/
def Env.connResult (env : Env) : Ret Unit :=
  match env.connErr with
  | none => .ok ()
  | some e => .error e

/-- The call `m.conn.WriteOK(nil)`, also reached through `m.writeOK` (es.go 562). -/
def Handler.WriteOK (env : Env) (m : Handler) : Ret Unit × Handler :=
  (env.connResult, m.effect .WriteOK)

/-- The call `m.conn.WriteResultset(m.conn.Status, r)`. -/
def Handler.WriteResultset (env : Env) (m : Handler) (r : Resultset) : Ret Unit × Handler :=
  (env.connResult, m.effect (.WriteResultset r))

/-- The method `SchemaUse` (es.go 102-111): the schema found, and the session. -/
def SchemaUse (m : Handler) (db : String) : Option Schema × Handler :=
  match m.schemas.lookup db with
  | some schema => (some schema, { m with schema := some db })
  | none => (none, m)

/-- The method `getSchema` (es.go 525-528). -/
def getSchema (m : Handler) (db : String) : Option Schema :=
  m.schemas.lookup db

/-- The method `loadTableSchema` (es.go 416-473). -/
def loadTableSchema (env : Env) (m : Handler) (table : String) : Ret Table × Handler :=
  match m.schema, m.active with
  | some k, some s =>
    match s.Tables.lookup table with
    | some tbl => (.ok tbl, m)
    | none =>
      let host := s.ChooseBackend
      let tbl := NewTable table
      let indexUrl := host ++ "/" ++ tbl.Name ++ "/_mapping"
      let respJh := (env.JsonHelperHttp indexUrl).jh
      let m := m.effect (.httpGet indexUrl)
      let respJh := respJh.Helper (table ++ ".mappings")
      let respKeys := respJh.Keys
      if respKeys.length < 1 then
        (.error (.errorString "Could not process desribe"), m)
      else
        let indexType := (respKeys.find? fun key => key != "_default_").getD "user"
        let jh := (respJh.Helper indexType).Helper "properties"
        let tbl := discover tbl jh
        (.ok tbl, m.cacheTable k table tbl)
  | _, _ => (.error (.errorString "no schema in use"), m)

/-- The method `handleSelect` (es.go 232-275). -/
def handleSelect (env : Env) (m : Handler) (sql : String) (req : SqlSelect) :
    Ret Unit × Handler :=
  match m.active with
  | none => (.error (.errorString "no schema in use"), m)
  | some _ =>
    if req.From.length > 1 then
      (.error (.errorString "join not implemented"), m)
    else
      match req.From with
      | [] => (.fault indexOutOfRange, m)
      | src :: _ =>
        let tblName := ToLower env src.Name
        match loadTableSchema env m tblName with
        | (.fault e, m) => (.fault e, m)
        | (.error _, m) =>
          (.error (.errorString ("Could not find table '" ++ tblName ++ "' schema")), m)
        | (.ok tbl, m) =>
          let m := m.effect (.esQuery tbl.Name)
          match env.Query tbl req with
          | .fault e => (.fault e, m)
          | .error err => (.error err, m)
          | .ok resp =>
            match env.WriteHeaders tbl req resp with
            | .fault e => (.fault e, m)
            | .error err => (.error err, m)
            | .ok rs =>
              match env.Finalize rs resp with
              | .fault e => (.fault e, m)
              | .error err => (.error err, m)
              | .ok rs => m.WriteResultset env rs

/-- The method `handleSelectSysVariable` (es.go 277-285).  The error of the builder
is dropped, as in the source; the nil result set it then leaves is written as the
empty one. -/
def handleSelectSysVariable (env : Env) (m : Handler) (sql : String) (stmt : SqlSelect)
    (sysVar : String) : Ret Unit × Handler :=
  match env.BuildSimpleSelectResult (1024 * 1024) sysVar with
  | .fault e => (.fault e, m)
  | .error _ => m.WriteResultset env { Fields := [], Rows := [] }
  | .ok r => m.WriteResultset env r

/-- The method `handleDescribeTable` (es.go 287-301). -/
def handleDescribeTable (env : Env) (m : Handler) (sql : String) (Identity : String) :
    Ret Unit × Handler :=
  match m.active with
  | none => (.error (.SqlError ER_NO_DB_ERROR "No database selected"), m)
  | some _ =>
    let tableName := ToLower env Identity
    match loadTableSchema env m tableName with
    | (.fault e, m) => (.fault e, m)
    | (.error err, m) => (.error err, m)
    | (.ok tbl, m) => m.WriteResultset env tbl.DescribeResultset

/-- The method `handleShowDatabases` (es.go 324-331). -/
def handleShowDatabases (env : Env) (m : Handler) : Ret Resultset :=
  let dbs := m.schemas.map Prod.fst
  env.BuildSimpleShowResultset dbs "Database"

/-- The method `handleShowTables` (es.go 333-354). -/
def handleShowTables (env : Env) (m : Handler) (sql : String) (From : String) :
    Ret Resultset :=
  let s := if From ≠ "" then getSchema m (ToLower env From) else m.active
  match s with
  | none => .error (.SqlError ER_NO_DB_ERROR "No database selected")
  | some s =>
    if s.TableNames.length = 0 then
      .error (.errorString "No tables found?")
    else
      let values := s.TableNames
      env.BuildSimpleShowResultset values ("Tables_in_" ++ s.Db)

/-- The method `handleShow` (es.go 303-322). -/
def handleShow (env : Env) (m : Handler) (sql : String) (Identity From : String) :
    Ret Unit × Handler :=
  let r :=
    if ToLower env Identity = "databases" then handleShowDatabases env m
    else if ToLower env Identity = "tables" then handleShowTables env m sql From
    else .error (.errorString ("unsupport show " ++ sql ++ " now"))
  match r with
  | .fault e => (.fault e, m)
  | .error err => (.error err, m)
  | .ok r => m.WriteResultset env r

/-- The body of `handleQuery` (es.go 167-229), what runs under the deferred
recovery.  For a DESCRIBE without identity the two remaining cases of the source
only log, and both reach the same `return`. -/
def handleQueryBody (env : Env) (m : Handler) (sql : String) : Ret Unit × Handler :=
  match env.ParseSql sql with
  | .fault e => (.fault e, m)
  | .error err =>
    let sql := ToLower env sql
    if Contains sql "set autocommit" then m.WriteOK env
    else if Contains sql "set session transaction isolation" then m.WriteOK env
    else (.error err, m)
  | .ok stmt =>
    match stmt with
    | .SqlDescribe Identity Nested NestedIsSelect =>
      if Identity ≠ "" then handleDescribeTable env m sql Identity
      else if Nested && NestedIsSelect then
        (.error (.errorString
          ("describe/explain not yet supported: " ++ env.goSyntax stmt)), m)
      else
        (.error (.errorString
          ("describe/explain not yet supported: " ++ env.goSyntax stmt)), m)
    | .SqlSelect stmtNode =>
      let sysVar := stmtNode.SysVariable
      if sysVar.length > 0 then handleSelectSysVariable env m sql stmtNode sysVar
      else handleSelect env m sql stmtNode
    | .SqlShow Identity From => handleShow env m sql Identity From
    | .other typeName =>
      (.error (.errorString ("statement " ++ typeName ++ " not support now")), m)

/-- The method `handleQuery` (es.go 154-230): the body, under the deferred recovery
unless `conf.SupressRecover` is set. -/
def handleQuery (env : Env) (m : Handler) (sql : String) : Ret Unit × Handler :=
  if !m.conf.SupressRecover then
    match handleQueryBody env m sql with
    | (.fault e, m) =>
      (.error (.errorString ("handle query " ++ sql ++ " error " ++ e)), m)
    | r => r
  else handleQueryBody env m sql

/-- The MySQL command tags that `chooseCommand` reads. -/
def COM_QUIT : Nat := 1
/-- The tag of InitDB. -/
def COM_INIT_DB : Nat := 2
/-- The tag of Query. -/
def COM_QUERY : Nat := 3
/-- The tag of Ping. -/
def COM_PING : Nat := 14
/-- The tag of StatementPrepare. -/
def COM_STMT_PREPARE : Nat := 22

/-- A request, `models.Request`: its `Raw` bytes are the command tag followed by the
payload, kept as text; `empty` is a request with no byte. -/
inductive Request where
  | empty
  | packet (cmd : Nat) (payload : String)

/-- The method `chooseCommand` (es.go 113-152), which `Handle` calls. -/
def chooseCommand (env : Env) (m : Handler) (req : Request) : Ret Unit × Handler :=
  match req with
  | .empty => (.fault indexOutOfRange, m)
  | .packet cmd raw =>
    if cmd = COM_QUERY then handleQuery env m raw
    else if cmd = COM_PING then m.WriteOK env
    else if cmd = COM_STMT_PREPARE then handleQuery env m raw
    else if cmd = COM_QUIT then (.ok (), m.effect .Close)
    else if cmd = COM_INIT_DB then
      match SchemaUse m raw with
      | (none, m) => (.error (.errorString ("Schema not found " ++ raw)), m)
      | (some _, m) => m.WriteOK env
    else
      let msg := "command " ++ toString cmd ++ ":" ++ env.CommandString cmd ++
        " not supported for now"
      (.error (.SqlError ER_UNKNOWN_ERROR msg), m)

/-! ## The native fields of a description, and names -/

/-- The dot-joined form of a path of field names. -/
def dotJoin : List String → String
  | [] => ""
  | [a] => a
  | a :: b :: rest => a ++ "." ++ dotJoin (b :: rest)

/-- Every native field of a description at every nesting level, as the path of
field names from the root: each field, and under it the fields of its nested
`properties`, whatever its type tag. -/
def allPaths (jh : JsonHelper) : List (List String) :=
  match jh with
  | [] => []
  | (field, v) :: rest =>
    [field] :: ((allPaths (v.helper.Helper "properties")).map fun p => field :: p)
      ++ allPaths rest
termination_by sizeOf jh
decreasing_by
  all_goals simp_wf
  all_goals
    have h1 := JsonHelper.sizeOf_Helper_le v.helper "properties"
    have h2 := Json.sizeOf_helper_le v
    omega

/-- The type tags that stand for one column: the scalar tags and `nested`. -/
def leafTag (esType : String) : Prop :=
  esType = "boolean" ∨ esType = "string" ∨ esType = "date" ∨
    (esType = "int" ∨ esType = "long" ∨ esType = "integer") ∨ esType = "nested"

instance (esType : String) : Decidable (leafTag esType) := by
  unfold leafTag
  infer_instance

/-- The native fields that have a descriptor (a non-empty mapping) and are reached
from the root through fields whose type tag is no `leafTag`, as paths of field
names, a field before the fields nested in it.  These are the fields as the
specification describes them: the descriptor of a field is the value stored under
its name. -/
def describedPaths (jh : JsonHelper) : List (List String) :=
  match jh with
  | [] => []
  | (field, v) :: rest =>
    if v.helper.length > 0 then
      if leafTag (v.helper.StringAt "type") then [field] :: describedPaths rest
      else
        [field] :: ((describedPaths (v.helper.Helper "properties")).map fun p => field :: p)
          ++ describedPaths rest
    else describedPaths rest
termination_by sizeOf jh
decreasing_by
  all_goals simp_wf
  all_goals
    have h1 := JsonHelper.sizeOf_Helper_le v.helper "properties"
    have h2 := Json.sizeOf_helper_le v
    omega

/-- The keys that `buildEsFields` visits, as paths of keys: of the keys `keys` of
`jh`, those under which `jh.Helper` finds a non-empty mapping, and below such a key
whose type tag is no `leafTag` the keys visited in its `properties`. -/
def visitedPathsRange (jh : JsonHelper) (keys : List String) : List (List String) :=
  match keys with
  | [] => []
  | field :: rest =>
    if hlen : (jh.Helper field).length > 0 then
      if leafTag ((jh.Helper field).StringAt "type") then [field] :: visitedPathsRange jh rest
      else
        [field] :: ((visitedPathsRange ((jh.Helper field).Helper "properties")
            ((jh.Helper field).Helper "properties").Keys).map fun p => field :: p)
          ++ visitedPathsRange jh rest
    else visitedPathsRange jh rest
termination_by (sizeOf jh, keys.length)
decreasing_by
  all_goals simp_wf
  all_goals first
    | exact Prod.Lex.right _ (Nat.lt_succ_self _)
    | exact Prod.Lex.left _ _ (Nat.lt_of_le_of_lt (JsonHelper.sizeOf_Helper_le _ _)
        (JsonHelper.sizeOf_Helper_lt _ _ hlen))

/-- The native fields that discovery visits, as paths of field names: the fields
that have a descriptor (a non-empty mapping, as `jh.Helper` finds it) and are
reached from the root through fields whose type tag is no `leafTag`, a field before
the fields nested in it. -/
def visitedPaths (jh : JsonHelper) : List (List String) :=
  visitedPathsRange jh jh.Keys

/-- The name in the first column of a descriptive row. -/
def rowName : List Cell → String
  | Cell.str s :: _ => s
  | _ => ""

/-- The names of the Fields of a table, in Field order. -/
def Table.fieldNames (tbl : Table) : List String :=
  tbl.Fields.map Field.Name

/-- The names in the first column of the descriptive rows of a table, in row order. -/
def Table.rowNames (tbl : Table) : List String :=
  tbl.DescribeValues.map rowName

/-- The native description that `loadTableSchema` hands to discovery, read from the
reply of the backend (es.go 439-456). -/
def nativeProperties (reply : JsonHelper) (table : String) : JsonHelper :=
  let respJh := reply.Helper (table ++ ".mappings")
  let indexType := (respJh.Keys.find? fun key => key != "_default_").getD "user"
  (respJh.Helper indexType).Helper "properties"

/-- The dot-joined names, under a prefix, of the native fields that are visited. -/
def visitedNames (jh : JsonHelper) (pfx : String) : List String :=
  (visitedPaths jh).map fun p => pfx ++ dotJoin p

/-- The dot-joined names, under a prefix, of the fields visited among `keys`. -/
def visitedNamesRange (jh : JsonHelper) (keys : List String) (pfx : String) : List String :=
  (visitedPathsRange jh keys).map fun p => pfx ++ dotJoin p

/-- Every mapping in a value is a `good` description. -/
def Json.AllObjects (good : JsonHelper → Prop) (v : Json) : Prop :=
  ∀ m, Json.Inside (.obj m) v → good m

/-! ## The `orders` example of the specification -/

/-- The descriptor `{"type":"long"}` of the native field `id`. -/
def idDescr : Json := .obj [("type", .str "long")]

/-- The descriptor `{"properties":{"name":{"type":"string"}}}` of the native field
`customer`. -/
def customerDescr : Json :=
  .obj [("properties", .obj [("name", .obj [("type", .str "string")])])]

/-- The native description of the table `orders`.  The nested mappings have one
entry each, so the traversal orders of the description are the orders of this
list. -/
def ordersProperties : JsonHelper := [("id", idDescr), ("customer", customerDescr)]

/-- The name and normalized type of each Field of a table, in Field order. -/
def Table.columns (tbl : Table) : List (String × ValueType) :=
  tbl.Fields.map fun f => (f.Name, f.ValType)

/-- A description whose field `tags` has the type tag `nested` and nested
properties: `{"tags":{"type":"nested","properties":{"name":{"type":"string"}}}}`. -/
def tagsProperties : JsonHelper :=
  [("tags", .obj [("type", .str "nested"),
    ("properties", .obj [("name", .obj [("type", .str "string")])])])]

/-! ## Sessions that a client can reach -/

/-- The states a session can be in: a state in which no table is cached yet (what
`loadSchemasFromConfig` builds), and then any state after one more command, under
any environment whose backend describes tables by descriptions that satisfy `good`. -/
inductive Reachable (good : JsonHelper → Prop) : Handler → Prop
  | init (m : Handler) (h : ∀ p ∈ m.schemas, p.2.Tables = []) : Reachable good m
  | step (env : Env) (m : Handler) (req : Request) (hm : Reachable good m)
      (henv : ∀ url table, good (nativeProperties (env.JsonHelperHttp url).jh table)) :
      Reachable good (chooseCommand env m req).2

/-- Every cached table of the session was built by discovery from a description
that satisfies `good`. -/
def CacheBuilt (good : JsonHelper → Prop) (schemas : List (String × Schema)) : Prop :=
  ∀ p ∈ schemas, ∀ q ∈ p.2.Tables,
    ∃ name jh, good jh ∧ q.2 = discover (NewTable name) jh

/-- A case table for the texts of the examples: the letters `A` to `Z` go to `a` to
`z`, the capital I with a dot above, U+0130, goes to `i` as in `unicode.ToLower`,
and every other character is kept, which is its lower case when it is an ASCII
character. -/
def exampleToLower (c : Char) : Char :=
  if c = Char.ofNat 0x130 then 'i' else c.toLower

/-- An environment in which every external call succeeds with an empty result and
the backend answers every metadata request with `reply`.  Its case table is
`exampleToLower`. -/
def replyEnv (reply : JsonHelper) : Env :=
  { ParseSql := fun _ => .error (.errorString "syntax error"),
    JsonHelperHttp := fun _ => { jh := reply, err := none },
    Query := fun _ _ => .ok (.obj []),
    WriteHeaders := fun _ _ _ => .ok { Fields := [], Rows := [] },
    Finalize := fun rs _ => .ok rs,
    BuildSimpleSelectResult := fun _ _ => .ok { Fields := [], Rows := [] },
    BuildSimpleShowResultset := fun _ _ => .ok { Fields := [], Rows := [] },
    connErr := none,
    goSyntax := fun _ => "",
    CommandString := fun _ => "",
    unicodeToLower := exampleToLower }

/-- The reply of the backend to the metadata request for `table`, whose only type
`indexType` has the properties `props`. -/
def mappingReply (table indexType : String) (props : JsonHelper) : JsonHelper :=
  [(table, .obj [("mappings", .obj [(indexType, .obj [("properties", .obj props)])])])]

/-- A schema `es` with an empty table cache. -/
def esSchema : Schema :=
  { Db := "es",
    Address := "http://localhost:9200",
    BackendType := "elasticsearch",
    TableNames := ["orders"],
    Tables := [] }

/-- A session right after start: the schema `es` in use, nothing cached. -/
def freshHandler : Handler :=
  { conf := { SupressRecover := false },
    schemas := [("es", esSchema)],
    schema := some "es",
    effects := [] }

/-- A description whose names cannot collide: no two visited native fields share
a path (the keys of a mapping are distinct), no name of a visited field contains
`.`, and no top-level field is named like a pseudo-column. -/
def PlainDescription (jh : JsonHelper) : Prop :=
  (visitedPaths jh).Nodup ∧
  (∀ p ∈ visitedPaths jh, ∀ n ∈ p, '.' ∉ n.data) ∧
  (∀ p ∈ visitedPaths jh, p ≠ ["_id"] ∧ p ≠ ["type"] ∧ p ≠ ["_score"])

/-- A key without the path syntax of the JSON helper: no `.`, no `/`, no `[` and no
`]`. -/
def plainKey (n : String) : Prop :=
  '.' ∉ n.data ∧ '/' ∉ n.data ∧ '[' ∉ n.data ∧ ']' ∉ n.data

instance (n : String) : Decidable (plainKey n) := by
  unfold plainKey
  infer_instance

/-- A description written with plain field names: its field names are plain keys
and pairwise distinct, as the keys of a map are, and so are those of the
`properties` of each of its fields, at every level. -/
inductive PlainNames : JsonHelper → Prop where
  | intro (jh : JsonHelper) (hnodup : jh.Keys.Nodup) (hplain : ∀ k ∈ jh.Keys, plainKey k)
      (hsub : ∀ p ∈ jh, PlainNames (p.2.helper.Helper "properties")) : PlainNames jh

/-- A description with a field `user` and a field whose name `user.type` is a path:
`{"user":{"type":"nested"},"user.type":{"type":"string"}}`. -/
def userProperties : JsonHelper :=
  [("user", .obj [("type", .str "nested")]), ("user.type", .obj [("type", .str "string")])]

/-- An environment whose backend describes the table `orders` of the specification. -/
def ordersEnv : Env := replyEnv (mappingReply "orders" "order" ordersProperties)

/-- A description with a native field named `type`: `{"type":{"type":"string"}}`. -/
def typeProperties : JsonHelper := [("type", .obj [("type", .str "string")])]

/-- An environment whose backend describes a table `docs` with a field `type`. -/
def docsEnv : Env := replyEnv (mappingReply "docs" "doc" typeProperties)

/-- Whether an effect is a metadata request to the backend. -/
def Effect.isHttpGet : Effect → Bool
  | .httpGet _ => true
  | _ => false

/-- The number of metadata requests the session has issued. -/
def Handler.fetches (m : Handler) : Nat :=
  (m.effects.filter Effect.isHttpGet).length

/-- Successive resolutions of one table name, one per environment of the list (the
backend may change between them): the results in order, and the final session. -/
def resolveAll (m : Handler) (table : String) : List Env → List (Ret Table) × Handler
  | [] => ([], m)
  | env :: envs =>
    ((loadTableSchema env m table).1 ::
        (resolveAll (loadTableSchema env m table).2 table envs).1,
      (resolveAll (loadTableSchema env m table).2 table envs).2)

/-- The table cached under a name in the schema in use, if any. -/
def Handler.cached (m : Handler) (table : String) : Option Table :=
  m.active.bind fun s => s.Tables.lookup table

/-- A parsed `SELECT @@max_allowed_packet FROM a, b`: a system-variable SELECT
with two table sources. -/
def sysVarJoin : SqlSelect :=
  { SysVariable := "@@max_allowed_packet",
    From := [{ Name := "a" }, { Name := "b" }],
    Body := "" }

/-- A parsed `SELECT * FROM a, b`: two table sources, no system variable. -/
def plainJoin : SqlSelect :=
  { SysVariable := "",
    From := [{ Name := "a" }, { Name := "b" }],
    Body := "*" }

/-- A parsed SELECT with no table source and no system variable. -/
def noSource : SqlSelect :=
  { SysVariable := "",
    From := [],
    Body := "1" }

/-- An environment whose parser answers every text with the statement `stmt`; every
other call is as in `replyEnv` with an empty reply. -/
def parsedEnv (stmt : Stmt) : Env :=
  { replyEnv [] with ParseSql := fun _ => .ok stmt }

/-! ## Keys without path syntax -/

theorem pathParts_plain (n : String) (h : plainKey n) : pathParts n = [n] := by
  obtain ⟨hd, hs, _, _⟩ := h
  unfold pathParts
  rw [if_neg hs]
  have : n.data.splitOn '.' = [n.data] := by
    apply List.splitOnP_eq_single
    intro x hx hxd
    have : x = '.' := by simpa using hxd
    exact hd (this ▸ hx)
  rw [this]
  rfl

theorem hasIndexSuffix_plain (n : String) (h : plainKey n) : ¬ hasIndexSuffix n := by
  intro hi
  exact h.2.2.1 hi.2

theorem partName_plain (n : String) (h : plainKey n) : partName n = n := by
  unfold partName
  rw [if_neg (hasIndexSuffix_plain n h)]

theorem partSuffix_plain (n : String) (h : plainKey n) : partSuffix n = .plain := by
  unfold partSuffix
  rw [if_neg (hasIndexSuffix_plain n h)]

theorem suffixStep_plain (n : String) (r : Json) (h : plainKey n) : suffixStep n r = .next r := by
  unfold suffixStep
  rw [partSuffix_plain n h]

/-- Under a key without path syntax `Get` finds the value stored under the key. -/
theorem JsonHelper.Get_plain (j : JsonHelper) (n : String) (h : plainKey n) :
    j.Get n = j.lookup n := by
  unfold JsonHelper.Get
  rw [pathParts_plain n h]
  simp only
  rw [partName_plain n h]
  cases hl : j.lookup n with
  | none => rw [JsonHelper.walk, hl]
  | some r => rw [JsonHelper.walk, suffixStep_plain n r h]

theorem JsonHelper.Helper_plain (j : JsonHelper) (n : String) (h : plainKey n) :
    j.Helper n = ((j.lookup n).map Json.helper).getD [] := by
  unfold JsonHelper.Helper
  rw [JsonHelper.Get_plain j n h]
  cases j.lookup n with
  | none => rfl
  | some v => cases v <;> rfl

theorem plainKey_type : plainKey "type" := by decide

theorem plainKey_properties : plainKey "properties" := by decide

theorem plainKey_mappings : plainKey "mappings" := by decide

/-- The path `a.b` of two keys without path syntax: the entry `b` of the value under
`a`, and the value under the whole key `a.b` when there is none. -/
theorem JsonHelper.Get_two (j : JsonHelper) (a b : String) (ha : plainKey a)
    (hb : plainKey b) :
    j.Get (a ++ "." ++ b) =
      match j.lookup a with
      | none => j.lookup (a ++ "." ++ b)
      | some r =>
        match jsonEntry b r with
        | none => j.lookup (a ++ "." ++ b)
        | some r2 => some r2 := by
  have hparts : pathParts (a ++ "." ++ b) = [a, b] := by
    unfold pathParts
    have hs : '/' ∉ (a ++ "." ++ b).data := by
      simp only [String.data_append, List.mem_append, not_or]
      exact ⟨⟨ha.2.1, by decide⟩, hb.2.1⟩
    rw [if_neg hs]
    have e : (a ++ "." ++ b).data = a.data ++ '.' :: b.data := by
      simp [String.data_append]
    have h1 : (a.data ++ '.' :: b.data).splitOn '.' = a.data :: b.data.splitOn '.' := by
      apply List.splitOnP_first
      · intro x hx hxd
        have : x = '.' := by simpa using hxd
        exact ha.1 (this ▸ hx)
      · simp
    have h2 : b.data.splitOn '.' = [b.data] := by
      apply List.splitOnP_eq_single
      intro x hx hxd
      have : x = '.' := by simpa using hxd
      exact hb.1 (this ▸ hx)
    rw [e, h1, h2]
    rfl
  unfold JsonHelper.Get
  rw [hparts]
  simp only
  rw [partName_plain a ha]
  cases hl : j.lookup a with
  | none => rw [JsonHelper.walk]
  | some r =>
    rw [JsonHelper.walk, suffixStep_plain a r ha]
    simp only
    rw [partName_plain b hb]
    cases he : jsonEntry b r with
    | none => rw [JsonHelper.walk]
    | some r2 => rw [JsonHelper.walk, suffixStep_plain b r2 hb]

theorem JsonHelper.Helper_nil (n : String) : JsonHelper.Helper [] n = [] := by
  rcases JsonHelper.Helper_holds [] n with h | ⟨k, c, hmem, _⟩
  · exact h
  · simp at hmem

/-! ## Discovery: the names it adds -/

theorem dotJoin_cons (a : String) (p : List String) (hp : p ≠ []) :
    dotJoin (a :: p) = a ++ "." ++ dotJoin p := by
  cases p with
  | nil => exact absurd rfl hp
  | cons b rest => rfl

theorem visitedPathsRange_ne_nil (jh : JsonHelper) (keys : List String) :
    ∀ p ∈ visitedPathsRange jh keys, p ≠ [] := by
  induction jh, keys using visitedPathsRange.induct with
  | case1 jh => intro p hp; simp [visitedPathsRange] at hp
  | case2 jh field rest hlen hleaf ih =>
    intro p hp
    rw [visitedPathsRange] at hp
    simp only [hlen, hleaf, if_true, dite_true] at hp
    rcases List.mem_cons.1 hp with h | h
    · simp [h]
    · exact ih p h
  | case3 jh field rest hlen hleaf ih1 ih2 =>
    intro p hp
    rw [visitedPathsRange] at hp
    simp only [hlen, hleaf, if_true, if_false, dite_true] at hp
    simp only [List.cons_append, List.mem_cons, List.mem_append, List.mem_map] at hp
    rcases hp with h | ⟨q, _, h⟩ | h
    · simp [h]
    · simp [← h]
    · exact ih2 p h
  | case4 jh field rest hlen ih =>
    intro p hp
    rw [visitedPathsRange] at hp
    simp only [hlen, dite_false] at hp
    exact ih p hp

theorem visitedPaths_ne_nil (jh : JsonHelper) : ∀ p ∈ visitedPaths jh, p ≠ [] :=
  visitedPathsRange_ne_nil jh jh.Keys

theorem visitedNamesRange_nil (jh : JsonHelper) (pfx : String) :
    visitedNamesRange jh [] pfx = [] := by
  simp [visitedNamesRange, visitedPathsRange]

theorem visitedNamesRange_skip (jh : JsonHelper) (field : String) (rest : List String)
    (pfx : String) (h : ¬ (jh.Helper field).length > 0) :
    visitedNamesRange jh (field :: rest) pfx = visitedNamesRange jh rest pfx := by
  simp only [visitedNamesRange]
  rw [visitedPathsRange]
  simp only [h, dite_false]

theorem visitedNamesRange_leaf (jh : JsonHelper) (field : String) (rest : List String)
    (pfx : String) (h : (jh.Helper field).length > 0)
    (ht : leafTag ((jh.Helper field).StringAt "type")) :
    visitedNamesRange jh (field :: rest) pfx =
      (pfx ++ field) :: visitedNamesRange jh rest pfx := by
  simp only [visitedNamesRange]
  rw [visitedPathsRange]
  simp only [h, ht, if_true, dite_true, List.map_cons, dotJoin]

theorem visitedNamesRange_container (jh : JsonHelper) (field : String) (rest : List String)
    (pfx : String) (h : (jh.Helper field).length > 0)
    (ht : ¬ leafTag ((jh.Helper field).StringAt "type")) :
    visitedNamesRange jh (field :: rest) pfx =
      (pfx ++ field) :: (visitedNames ((jh.Helper field).Helper "properties")
          (pfx ++ field ++ ".")
        ++ visitedNamesRange jh rest pfx) := by
  simp only [visitedNamesRange, visitedNames, visitedPaths]
  rw [visitedPathsRange]
  simp only [h, ht, if_true, if_false, dite_true, List.map_cons, dotJoin, List.cons_append,
    List.map_append, List.map_map]
  congr 2
  apply List.map_congr_left
  intro p hp
  simp only [Function.comp]
  rw [dotJoin_cons field p (visitedPathsRange_ne_nil _ _ p hp)]
  simp [String.append_assoc]

theorem AddField_fieldNames (tbl : Table) (fld : Field) :
    (tbl.AddField fld).fieldNames = tbl.fieldNames ++ [fld.Name] := by
  simp [Table.AddField, Table.fieldNames]

theorem AddField_rowNames (tbl : Table) (fld : Field) :
    (tbl.AddField fld).rowNames = tbl.rowNames := rfl

theorem AddValues_fieldNames (tbl : Table) (row : List Cell) :
    (tbl.AddValues row).fieldNames = tbl.fieldNames := rfl

theorem AddValues_rowNames (tbl : Table) (row : List Cell) :
    (tbl.AddValues row).rowNames = tbl.rowNames ++ [rowName row] := by
  simp [Table.AddValues, Table.rowNames]

theorem buildEsFieldsRange_nil (tbl : Table) (jh : JsonHelper) (pfx : String) (depth : Nat) :
    buildEsFieldsRange tbl jh [] pfx depth = tbl := by
  rw [buildEsFieldsRange]

theorem buildEsFields_nil (tbl : Table) (pfx : String) (depth : Nat) :
    buildEsFields tbl [] pfx depth = tbl := by
  rw [buildEsFields, JsonHelper.Keys, List.map_nil, buildEsFieldsRange_nil]

theorem buildEsFieldsRange_skip (tbl : Table) (jh : JsonHelper) (field : String)
    (rest : List String) (pfx : String) (depth : Nat) (h : ¬ (jh.Helper field).length > 0) :
    buildEsFieldsRange tbl jh (field :: rest) pfx depth =
      buildEsFieldsRange tbl jh rest pfx depth := by
  rw [buildEsFieldsRange]
  simp only [h, dite_false]

theorem buildEsFieldsRange_leaf (tbl : Table) (jh : JsonHelper) (field : String)
    (rest : List String) (pfx : String) (depth : Nat) (h : (jh.Helper field).length > 0)
    (ht : leafTag ((jh.Helper field).StringAt "type")) :
    ∃ row fld, rowName row = pfx ++ field ∧ fld.Name = pfx ++ field ∧
      buildEsFieldsRange tbl jh (field :: rest) pfx depth =
        buildEsFieldsRange ((tbl.AddValues row).AddField fld) jh rest pfx depth := by
  rw [buildEsFieldsRange]
  simp only [h, dite_true]
  by_cases h1 : (jh.Helper field).StringAt "type" = "boolean"
  · simp only [h1, if_true]
    refine ⟨_, _, ?_, ?_, rfl⟩ <;> rfl
  by_cases h2 : (jh.Helper field).StringAt "type" = "string"
  · simp only [h1, h2, if_true, if_false]
    refine ⟨_, _, ?_, ?_, rfl⟩ <;> rfl
  by_cases h3 : (jh.Helper field).StringAt "type" = "date"
  · simp only [h1, h2, h3, if_true, if_false]
    refine ⟨_, _, ?_, ?_, rfl⟩ <;> rfl
  by_cases h4 : (jh.Helper field).StringAt "type" = "int" ∨
      (jh.Helper field).StringAt "type" = "long" ∨
      (jh.Helper field).StringAt "type" = "integer"
  · simp only [h1, h2, h3, h4, if_true, if_false]
    refine ⟨_, _, ?_, ?_, rfl⟩ <;> rfl
  by_cases h5 : (jh.Helper field).StringAt "type" = "nested"
  · simp only [h1, h2, h3, h4, h5, if_true, if_false]
    refine ⟨_, _, ?_, ?_, rfl⟩ <;> rfl
  · exfalso
    unfold leafTag at ht
    tauto

theorem buildEsFieldsRange_container (tbl : Table) (jh : JsonHelper) (field : String)
    (rest : List String) (pfx : String) (depth : Nat) (h : (jh.Helper field).length > 0)
    (ht : ¬ leafTag ((jh.Helper field).StringAt "type")) :
    buildEsFieldsRange tbl jh (field :: rest) pfx depth =
      buildEsFieldsRange
        ((buildEsFields
          (tbl.AddValues [.str (pfx ++ field), .str "object", .str "YES", .str "", .null,
            .str objectDescr])
          ((jh.Helper field).Helper "properties") (pfx ++ field ++ ".") (depth + 1)).AddField
          (NewField (pfx ++ field) .StringType 2000 (.text objectDescr))) jh rest pfx depth := by
  rw [buildEsFieldsRange]
  unfold leafTag at ht
  have h1 : ¬ (jh.Helper field).StringAt "type" = "boolean" := by tauto
  have h2 : ¬ (jh.Helper field).StringAt "type" = "string" := by tauto
  have h3 : ¬ (jh.Helper field).StringAt "type" = "date" := by tauto
  have h4 : ¬ ((jh.Helper field).StringAt "type" = "int" ∨
      (jh.Helper field).StringAt "type" = "long" ∨
      (jh.Helper field).StringAt "type" = "integer") := by tauto
  have h5 : ¬ (jh.Helper field).StringAt "type" = "nested" := by tauto
  simp only [h, h1, h2, h3, h4, h5, if_true, if_false, dite_true]
  by_cases hp : ((jh.Helper field).Helper "properties").length > 0
  · simp only [hp, if_true, buildEsFields]
  · simp only [hp, if_false]
    have : (jh.Helper field).Helper "properties" = [] := by
      cases hq : (jh.Helper field).Helper "properties" with
      | nil => rfl
      | cons a l => rw [hq] at hp; simp at hp
    rw [this, buildEsFields_nil]

theorem buildEsFieldsRange_names (jh : JsonHelper) (keys : List String) :
    ∀ (tbl : Table) (pfx : String) (depth : Nat),
    (buildEsFieldsRange tbl jh keys pfx depth).Name = tbl.Name ∧
    (buildEsFieldsRange tbl jh keys pfx depth).rowNames =
      tbl.rowNames ++ visitedNamesRange jh keys pfx ∧
    ((buildEsFieldsRange tbl jh keys pfx depth).fieldNames).Perm
      (tbl.fieldNames ++ visitedNamesRange jh keys pfx) := by
  induction jh, keys using visitedPathsRange.induct with
  | case1 jh =>
    intro tbl pfx depth
    simp [buildEsFieldsRange_nil, visitedNamesRange_nil]
  | case2 jh field rest hlen hleaf ih =>
    intro tbl pfx depth
    obtain ⟨row, fld, hrow, hfld, heq⟩ :=
      buildEsFieldsRange_leaf tbl jh field rest pfx depth hlen hleaf
    obtain ⟨i1, i2, i3⟩ := ih ((tbl.AddValues row).AddField fld) pfx depth
    rw [heq, visitedNamesRange_leaf jh field rest pfx hlen hleaf]
    refine ⟨i1, ?_, ?_⟩
    · rw [i2, AddField_rowNames, AddValues_rowNames, hrow]
      simp
    · rw [AddField_fieldNames, AddValues_fieldNames, hfld] at i3
      simpa using i3
  | case3 jh field rest hlen hleaf ih1 ih2 =>
    intro tbl pfx depth
    rw [buildEsFieldsRange_container tbl jh field rest pfx depth hlen hleaf,
      visitedNamesRange_container jh field rest pfx hlen hleaf]
    obtain ⟨a1, a2, a3⟩ := ih1
      (tbl.AddValues [.str (pfx ++ field), .str "object", .str "YES", .str "", .null,
        .str objectDescr]) (pfx ++ field ++ ".") (depth + 1)
    obtain ⟨b1, b2, b3⟩ := ih2
      ((buildEsFields
          (tbl.AddValues [.str (pfx ++ field), .str "object", .str "YES", .str "", .null,
            .str objectDescr])
          ((jh.Helper field).Helper "properties") (pfx ++ field ++ ".") (depth + 1)).AddField
          (NewField (pfx ++ field) .StringType 2000 (.text objectDescr))) pfx depth
    refine ⟨?_, ?_, ?_⟩
    · rw [b1]
      exact a1
    · rw [b2, AddField_rowNames]
      unfold buildEsFields
      rw [a2, AddValues_rowNames]
      simp [rowName, visitedNames, visitedPaths, visitedNamesRange]
    · refine b3.trans ?_
      rw [AddField_fieldNames]
      rw [AddValues_fieldNames] at a3
      have hn : (NewField (pfx ++ field) .StringType 2000 (.text objectDescr)).Name
          = pfx ++ field := rfl
      rw [hn]
      have step : ((buildEsFields
          (tbl.AddValues [.str (pfx ++ field), .str "object", .str "YES", .str "", .null,
            .str objectDescr])
          ((jh.Helper field).Helper "properties") (pfx ++ field ++ ".") (depth + 1)).fieldNames
            ++ [pfx ++ field]).Perm
          (tbl.fieldNames ++ (pfx ++ field) ::
            visitedNames ((jh.Helper field).Helper "properties") (pfx ++ field ++ ".")) := by
        refine (List.Perm.append_right _ a3).trans ?_
        rw [List.append_assoc]
        refine List.Perm.append_left _ ?_
        exact List.perm_append_singleton _ _
      refine (List.Perm.append_right _ step).trans ?_
      simp
  | case4 jh field rest hlen ih =>
    intro tbl pfx depth
    rw [buildEsFieldsRange_skip tbl jh field rest pfx depth hlen,
      visitedNamesRange_skip jh field rest pfx hlen]
    exact ih tbl pfx depth

theorem buildEsFields_names (jh : JsonHelper) (tbl : Table) (pfx : String) (depth : Nat) :
    (buildEsFields tbl jh pfx depth).Name = tbl.Name ∧
    (buildEsFields tbl jh pfx depth).rowNames = tbl.rowNames ++ visitedNames jh pfx ∧
    ((buildEsFields tbl jh pfx depth).fieldNames).Perm
      (tbl.fieldNames ++ visitedNames jh pfx) :=
  buildEsFieldsRange_names jh jh.Keys tbl pfx depth

/-! ## C1: the `orders` scenario -/

theorem JsonHelper.StringAt_plain (j : JsonHelper) (n : String) (h : plainKey n) :
    j.StringAt n =
      match j.lookup n with
      | some (Json.str s) => s
      | some (Json.other c) => c
      | some (Json.arr _ c) => c
      | some (Json.obj _) => "map[...]"
      | some Json.null => ""
      | none => "" := by
  unfold JsonHelper.StringAt
  rw [JsonHelper.Get_plain j n h]

theorem perm_pair {α : Type} (l : List α) (a b : α) (h : l.Perm [a, b]) :
    l = [a, b] ∨ l = [b, a] := by
  have hl := h.length_eq
  match l, hl with
  | [x, y], _ =>
    have hx : x ∈ [a, b] := h.subset (by simp)
    have hy : y ∈ [a, b] := h.subset (by simp)
    have ha : a ∈ [x, y] := h.symm.subset (by simp)
    have hb : b ∈ [x, y] := h.symm.subset (by simp)
    simp only [List.mem_cons, List.mem_singleton, List.not_mem_nil, or_false] at hx hy ha hb
    rcases hx with rfl | rfl <;> rcases hy with rfl | rfl
    · rcases hb with rfl | rfl <;> simp
    · simp
    · simp
    · rcases ha with rfl | rfl <;> simp

theorem orders_Fields_eval :
    (discover (NewTable "orders") ordersProperties).Fields =
      [NewField "_id" .StringType 24 (.text "AUTOGEN"),
        NewField "type" .StringType 24 (.text "tbd"),
        NewField "_score" .NumberType 24 (.text "Created per Search By Elasticsearch"),
        NewField "id" .IntType 8 (.marshal [("type", .str "long")]),
        NewField "customer.name" .StringType 512 (.marshal [("type", .str "string")]),
        NewField "customer" .StringType 2000 (.text objectDescr)] := by
  have e1 := fun j => JsonHelper.Helper_plain j "id" (by decide)
  have e2 := fun j => JsonHelper.Helper_plain j "customer" (by decide)
  have e3 := fun j => JsonHelper.Helper_plain j "name" (by decide)
  have e4 := fun j => JsonHelper.Helper_plain j "properties" (by decide)
  have e5 := fun j => JsonHelper.StringAt_plain j "type" (by decide)
  simp +decide [discover, ordersProperties, idDescr, customerDescr, buildEsFields, buildEsFieldsRange,
    seedPseudoColumns, NewTable, Table.AddField, Table.AddValues, Json.helper,
    JsonHelper.Keys, e1, e2, e3, e4, e5, List.lookup]

theorem orders_Fields_eval_swapped :
    (discover (NewTable "orders") [("customer", customerDescr), ("id", idDescr)]).Fields =
      [NewField "_id" .StringType 24 (.text "AUTOGEN"),
        NewField "type" .StringType 24 (.text "tbd"),
        NewField "_score" .NumberType 24 (.text "Created per Search By Elasticsearch"),
        NewField "customer.name" .StringType 512 (.marshal [("type", .str "string")]),
        NewField "customer" .StringType 2000 (.text objectDescr),
        NewField "id" .IntType 8 (.marshal [("type", .str "long")])] := by
  have e1 := fun j => JsonHelper.Helper_plain j "id" (by decide)
  have e2 := fun j => JsonHelper.Helper_plain j "customer" (by decide)
  have e3 := fun j => JsonHelper.Helper_plain j "name" (by decide)
  have e4 := fun j => JsonHelper.Helper_plain j "properties" (by decide)
  have e5 := fun j => JsonHelper.StringAt_plain j "type" (by decide)
  simp +decide [discover, idDescr, customerDescr, buildEsFields, buildEsFieldsRange,
    seedPseudoColumns, NewTable, Table.AddField, Table.AddValues, Json.helper,
    JsonHelper.Keys, e1, e2, e3, e4, e5, List.lookup]

theorem discover_orders_eval :
    (discover (NewTable "orders") ordersProperties).columns =
      [("_id", .StringType), ("type", .StringType), ("_score", .NumberType),
        ("id", .IntType), ("customer.name", .StringType), ("customer", .StringType)] := by
  rw [Table.columns, orders_Fields_eval]
  rfl

theorem discover_orders_eval_swapped :
    (discover (NewTable "orders") [("customer", customerDescr), ("id", idDescr)]).columns =
      [("_id", .StringType), ("type", .StringType), ("_score", .NumberType),
        ("customer.name", .StringType), ("customer", .StringType), ("id", .IntType)] := by
  rw [Table.columns, orders_Fields_eval_swapped]
  rfl

/-- C1, as stated, fails: in the `orders` scenario the Fields of the table are not,
in any order, the six of the claim, because the Field `customer` has the
normalized type string and not unknown. -/
theorem orders_customer_field_is_not_unknown :
    ¬ ((discover (NewTable "orders") ordersProperties).columns).Perm
      [("_id", .StringType), ("type", .StringType), ("_score", .NumberType),
        ("id", .IntType), ("customer", .UnknownType), ("customer.name", .StringType)] := by
  rw [discover_orders_eval]
  intro h
  have hm := h.symm.subset (show (("customer", ValueType.UnknownType) : String × ValueType) ∈ _
    by simp)
  simp at hm

/-- C1, amended: for every traversal order of the `orders` description, discovery
yields exactly six Fields, `_id` (string), `type` (string), `_score` (number) first
and in that order, followed by the discovered Fields `id` (integer),
`customer` (string) and `customer.name` (string) in some order; the descriptor of
the Field `customer` is the literal `{"type":"object"}`. -/
theorem discover_orders_fields (jh : JsonHelper) (h : jh.Perm ordersProperties) :
    ∃ d, (discover (NewTable "orders") jh).columns =
        [("_id", .StringType), ("type", .StringType), ("_score", .NumberType)] ++ d ∧
      d.Perm [("id", .IntType), ("customer", .StringType), ("customer.name", .StringType)] ∧
      (discover (NewTable "orders") jh).Fields.length = 6 ∧
      (∀ f ∈ (discover (NewTable "orders") jh).Fields, f.Name = "customer" →
        f.ValType = .StringType ∧ f.Description = .text objectDescr) := by
  rcases perm_pair jh _ _ h with rfl | rfl
  · have hF := orders_Fields_eval
    rw [ordersProperties] at hF
    refine ⟨[("id", .IntType), ("customer.name", .StringType), ("customer", .StringType)],
      discover_orders_eval, ?_, ?_, ?_⟩
    · exact List.Perm.cons _ (List.Perm.swap _ _ _)
    · rw [hF]
      rfl
    · rw [hF]
      intro f hf hn
      simp only [List.mem_cons, List.mem_singleton, List.not_mem_nil, or_false] at hf
      rcases hf with rfl | rfl | rfl | rfl | rfl | rfl
      · exact absurd hn (by decide)
      · exact absurd hn (by decide)
      · exact absurd hn (by decide)
      · exact absurd hn (by decide)
      · exact absurd hn (by decide)
      · exact ⟨rfl, rfl⟩
  · refine ⟨[("customer.name", .StringType), ("customer", .StringType), ("id", .IntType)],
      discover_orders_eval_swapped, ?_, ?_, ?_⟩
    · decide
    · rw [orders_Fields_eval_swapped]
      rfl
    · rw [orders_Fields_eval_swapped]
      intro f hf hn
      simp only [List.mem_cons, List.mem_singleton, List.not_mem_nil, or_false] at hf
      rcases hf with rfl | rfl | rfl | rfl | rfl | rfl
      · exact absurd hn (by decide)
      · exact absurd hn (by decide)
      · exact absurd hn (by decide)
      · exact absurd hn (by decide)
      · exact ⟨rfl, rfl⟩
      · exact absurd hn (by decide)

/-- The amended C1 at the traversal order in which the description is written. -/
theorem discover_orders_fields_witness :
    ∃ d, (discover (NewTable "orders") ordersProperties).columns =
        [("_id", .StringType), ("type", .StringType), ("_score", .NumberType)] ++ d ∧
      d.Perm [("id", .IntType), ("customer", .StringType), ("customer.name", .StringType)] ∧
      (discover (NewTable "orders") ordersProperties).Fields.length = 6 ∧
      (∀ f ∈ (discover (NewTable "orders") ordersProperties).Fields, f.Name = "customer" →
        f.ValType = .StringType ∧ f.Description = .text objectDescr) :=
  discover_orders_fields ordersProperties (List.Perm.refl _)

/-! ## C2: which native fields become Fields -/

/-- C2, as stated, fails: for a field with the type tag `nested` the nested
`properties` get no Field, so the names of the Fields added are not the dot-joined
paths of all native fields. -/
theorem nested_tag_properties_get_no_field :
    ¬ ((buildEsFields (NewTable "docs") tagsProperties "" 0).fieldNames).Perm
      ((NewTable "docs").fieldNames ++ (allPaths tagsProperties).map fun p => "" ++ dotJoin p) := by
  intro h
  have hl := h.length_eq
  have e1 := fun j => JsonHelper.Helper_plain j "tags" (by decide)
  have e2 := fun j => JsonHelper.Helper_plain j "name" (by decide)
  have e3 := fun j => JsonHelper.Helper_plain j "properties" (by decide)
  have e4 := fun j => JsonHelper.StringAt_plain j "type" (by decide)
  simp +decide [Table.fieldNames, tagsProperties, buildEsFields, buildEsFieldsRange, allPaths,
    NewTable, Table.AddField, Table.AddValues, Json.helper, JsonHelper.Keys, e1, e2, e3, e4,
    List.lookup, NewField] at hl

theorem lookup_of_mem_nodup {α : Type} (l : List (String × α)) (k : String) (v : α)
    (hnd : (l.map Prod.fst).Nodup) (hmem : (k, v) ∈ l) : l.lookup k = some v := by
  induction l with
  | nil => simp at hmem
  | cons p rest ih =>
    obtain ⟨k1, v1⟩ := p
    rw [List.map_cons, List.nodup_cons] at hnd
    rw [List.lookup_cons]
    rcases List.mem_cons.1 hmem with h | h
    · simp only [Prod.mk.injEq] at h
      obtain ⟨rfl, rfl⟩ := h
      simp
    · have hne : k ≠ k1 := by
        intro hk
        apply hnd.1
        rw [← hk]
        exact List.mem_map.2 ⟨(k, v), h, rfl⟩
      have : (k == k1) = false := by simpa using hne
      rw [this]
      exact ih hnd.2 h

/-- In a map with distinct keys, under a key without path syntax `Helper` finds the
helper of the value stored under the key. -/
theorem JsonHelper.Helper_entry (jh : JsonHelper) (k : String) (v : Json)
    (hnd : jh.Keys.Nodup) (hk : plainKey k) (hmem : (k, v) ∈ jh) :
    jh.Helper k = v.helper := by
  rw [JsonHelper.Helper_plain jh k hk, lookup_of_mem_nodup jh k v hnd hmem]
  rfl

theorem visitedPathsRange_nil (jh : JsonHelper) : visitedPathsRange jh [] = [] := by
  rw [visitedPathsRange]

theorem visitedPathsRange_cons (jh : JsonHelper) (field : String) (rest : List String) :
    visitedPathsRange jh (field :: rest) =
      if (jh.Helper field).length > 0 then
        if leafTag ((jh.Helper field).StringAt "type") then
          [field] :: visitedPathsRange jh rest
        else
          [field] :: ((visitedPaths ((jh.Helper field).Helper "properties")).map
            fun p => field :: p) ++ visitedPathsRange jh rest
      else visitedPathsRange jh rest := by
  rw [visitedPathsRange]
  by_cases h : (jh.Helper field).length > 0
  · simp only [h, dite_true, if_true, visitedPaths]
  · simp only [h, dite_false, if_false]

theorem describedPaths_cons (field : String) (v : Json) (rest : JsonHelper) :
    describedPaths ((field, v) :: rest) =
      if v.helper.length > 0 then
        if leafTag (v.helper.StringAt "type") then [field] :: describedPaths rest
        else
          [field] :: ((describedPaths (v.helper.Helper "properties")).map fun p => field :: p)
            ++ describedPaths rest
      else describedPaths rest := by
  rw [describedPaths]

theorem visitedPathsRange_plain (jh : JsonHelper) (h : PlainNames jh) :
    ∀ pre rest : JsonHelper, jh = pre ++ rest →
      visitedPathsRange jh rest.Keys = describedPaths rest := by
  induction h with
  | intro jh hnodup hplain hsub ih =>
    intro pre rest
    induction rest generalizing pre with
    | nil =>
      intro _
      rw [JsonHelper.Keys, List.map_nil, visitedPathsRange_nil, describedPaths]
    | cons p rest ihr =>
      obtain ⟨k, v⟩ := p
      intro hjh
      have hmem : (k, v) ∈ jh := by rw [hjh]; simp
      have hk : plainKey k := hplain k (List.mem_map.2 ⟨(k, v), hmem, rfl⟩)
      have hH : jh.Helper k = v.helper := JsonHelper.Helper_entry jh k v hnodup hk hmem
      have hrest : visitedPathsRange jh (JsonHelper.Keys rest) = describedPaths rest :=
        ihr (pre ++ [(k, v)]) (by rw [hjh]; simp)
      have hprops : visitedPaths (v.helper.Helper "properties") =
          describedPaths (v.helper.Helper "properties") :=
        ih (k, v) hmem [] _ rfl
      have hkeys : JsonHelper.Keys ((k, v) :: rest) = k :: JsonHelper.Keys rest := rfl
      rw [hkeys, visitedPathsRange_cons, describedPaths_cons, hH, hrest, hprops]

/-- For a description written with plain field names, the fields that discovery
visits are the fields the description has. -/
theorem visitedPaths_plain (jh : JsonHelper) (h : PlainNames jh) :
    visitedPaths jh = describedPaths jh :=
  visitedPathsRange_plain jh h [] jh rfl

/-- C2, amended: for every native description written with plain field names (no
name, at any level, has a `.`, `/`, `[` or `]`, which `jh.Helper` would read as a
path, and the names of one level are distinct) and every prefix, `buildEsFields`
adds exactly one Field for every native field that has a non-empty descriptor and is
reached from the root through fields whose type tag is none of `boolean`, `string`,
`date`, `int`, `long`, `integer`, `nested`; the name of that Field is the prefix
followed by the dot-joined path of the field.  The Fields the table had stay. -/
theorem buildEsFields_adds_described_fields (tbl : Table) (jh : JsonHelper) (pfx : String)
    (depth : Nat) (h : PlainNames jh) :
    ((buildEsFields tbl jh pfx depth).fieldNames).Perm
      (tbl.fieldNames ++ (describedPaths jh).map fun p => pfx ++ dotJoin p) := by
  have hn := (buildEsFields_names jh tbl pfx depth).2.2
  rw [visitedNames, visitedPaths_plain jh h] at hn
  exact hn

theorem PlainNames_nil : PlainNames [] :=
  PlainNames.intro [] (by simp [JsonHelper.Keys]) (by simp [JsonHelper.Keys]) (by simp)

theorem ordersProperties_plainNames : PlainNames ordersProperties := by
  have e := fun j => JsonHelper.Helper_plain j "properties" (by decide)
  refine PlainNames.intro _ (by decide) (by decide) ?_
  intro p hp
  simp only [ordersProperties, List.mem_cons, List.mem_singleton, List.not_mem_nil,
    or_false] at hp
  rcases hp with rfl | rfl
  · have : (idDescr.helper).Helper "properties" = [] := by
      simp +decide [idDescr, Json.helper, e, List.lookup]
    rw [this]
    exact PlainNames_nil
  · have : (customerDescr.helper).Helper "properties" =
        [("name", .obj [("type", .str "string")])] := by
      simp +decide [customerDescr, Json.helper, e, List.lookup]
    rw [this]
    refine PlainNames.intro _ (by decide) (by decide) ?_
    intro q hq
    simp only [List.mem_singleton] at hq
    subst hq
    have : (Json.helper (.obj [("type", .str "string")])).Helper "properties" = [] := by
      simp +decide [Json.helper, e, List.lookup]
    rw [this]
    exact PlainNames_nil

/-- The amended C2 at the description of `orders`, with the empty prefix. -/
theorem buildEsFields_adds_described_fields_witness :
    PlainNames ordersProperties ∧
    ((buildEsFields (NewTable "orders") ordersProperties "" 0).fieldNames).Perm
      ((NewTable "orders").fieldNames ++
        (describedPaths ordersProperties).map fun p => "" ++ dotJoin p) :=
  ⟨ordersProperties_plainNames,
    buildEsFields_adds_described_fields (NewTable "orders") ordersProperties "" 0
      ordersProperties_plainNames⟩

/-- Why the field names have to be plain: `jh.Helper("user.type")` walks the path
`user`, `type` and finds the string `nested`, no mapping, so the native field
`user.type` gets no Field, although it has a descriptor of its own. -/
theorem dotted_field_name_is_read_as_path :
    (buildEsFields (NewTable "docs") userProperties "" 0).fieldNames = ["user"] ∧
    (describedPaths userProperties).map dotJoin = ["user", "user.type"] := by
  have e1 := fun j => JsonHelper.Helper_plain j "user" (by decide)
  have e2 : userProperties.Helper "user.type" = [] :=
    List.length_eq_zero.1 (by decide)
  have e3 := fun j => JsonHelper.Helper_plain j "properties" (by decide)
  have e4 := fun j => JsonHelper.StringAt_plain j "type" (by decide)
  constructor
  · rw [buildEsFields]
    have hk : userProperties.Keys = ["user", "user.type"] := rfl
    rw [hk, buildEsFieldsRange]
    simp +decide [buildEsFieldsRange, e2, Table.fieldNames, NewTable, Table.AddField,
      Table.AddValues, NewField, userProperties, e1, e4, Json.helper, List.lookup]
  · simp +decide [describedPaths, userProperties, Json.helper, e3, e4, List.lookup, dotJoin,
      leafTag]

/-! ## The table cache -/

theorem lookup_mapSet {α : Type} (l : List (String × α)) (k : String) (v : α) :
    (mapSet l k v).lookup k = some v := by
  simp [mapSet, List.lookup_cons]

theorem lookup_map_update {α : Type} (l : List (String × α)) (k : String) (f : α → α) :
    (l.map fun p => if p.1 = k then (p.1, f p.2) else p).lookup k = (l.lookup k).map f := by
  induction l with
  | nil => simp
  | cons p rest ih =>
    obtain ⟨k1, v1⟩ := p
    by_cases hk : k = k1
    · subst hk
      simp [List.lookup_cons]
    · have h1 : (k == k1) = false := by simpa using hk
      have h2 : ¬ k1 = k := fun h => hk h.symm
      simp only [List.map_cons, h2, if_false, List.lookup_cons, h1]
      exact ih

/-- What `loadTableSchema` does when the table is cached. -/
theorem loadTableSchema_hit (env : Env) (m : Handler) (table k : String) (s : Schema)
    (tbl : Table) (hk : m.schema = some k) (hs : m.schemas.lookup k = some s)
    (ht : s.Tables.lookup table = some tbl) :
    loadTableSchema env m table = (.ok tbl, m) := by
  have ha : m.active = some s := by simp [Handler.active, hk, hs]
  simp only [loadTableSchema, hk, ha, ht]

/-- What `loadTableSchema` does when the table is not cached. -/
theorem loadTableSchema_miss (env : Env) (m : Handler) (table k : String) (s : Schema)
    (hk : m.schema = some k) (hs : m.schemas.lookup k = some s)
    (ht : s.Tables.lookup table = none) :
    loadTableSchema env m table =
      if (((env.JsonHelperHttp (s.Address ++ "/" ++ table ++ "/_mapping")).jh.Helper
          (table ++ ".mappings")).Keys.length < 1) then
        (.error (.errorString "Could not process desribe"),
          m.effect (.httpGet (s.Address ++ "/" ++ table ++ "/_mapping")))
      else
        (.ok (discover (NewTable table)
            (nativeProperties (env.JsonHelperHttp (s.Address ++ "/" ++ table ++ "/_mapping")).jh
              table)),
          (m.effect (.httpGet (s.Address ++ "/" ++ table ++ "/_mapping"))).cacheTable k table
            (discover (NewTable table)
              (nativeProperties
                (env.JsonHelperHttp (s.Address ++ "/" ++ table ++ "/_mapping")).jh table))) := by
  have ha : m.active = some s := by simp [Handler.active, hk, hs]
  simp only [loadTableSchema, hk, ha, ht, Schema.ChooseBackend, NewTable, nativeProperties]

/-- When no schema is in use `loadTableSchema` fails and does nothing. -/
theorem loadTableSchema_no_schema (env : Env) (m : Handler) (table : String)
    (h : m.active = none) :
    loadTableSchema env m table = (.error (.errorString "no schema in use"), m) := by
  unfold loadTableSchema
  split
  · rename_i k s hk ha
    rw [h] at ha
    exact absurd ha (by simp)
  · rfl

theorem effect_schemas (m : Handler) (e : Effect) : (m.effect e).schemas = m.schemas := rfl

theorem CacheBuilt_cacheTable (good : JsonHelper → Prop) (m : Handler) (k table : String)
    (jh : JsonHelper) (hg : good jh) (h : CacheBuilt good m.schemas) :
    CacheBuilt good (m.cacheTable k table (discover (NewTable table) jh)).schemas := by
  intro p hp q hq
  simp only [Handler.cacheTable, List.mem_map] at hp
  obtain ⟨p0, hp0, rfl⟩ := hp
  by_cases hk : p0.1 = k
  · simp only [hk, if_true, mapSet, List.mem_cons, List.mem_filter] at hq
    rcases hq with rfl | ⟨hq, _⟩
    · exact ⟨table, jh, hg, rfl⟩
    · exact h p0 hp0 q hq
  · simp only [hk, if_false] at hq
    exact h p0 hp0 q hq

theorem loadTableSchema_CacheBuilt (good : JsonHelper → Prop) (env : Env) (m : Handler)
    (table : String)
    (henv : ∀ url table, good (nativeProperties (env.JsonHelperHttp url).jh table))
    (h : CacheBuilt good m.schemas) :
    CacheBuilt good (loadTableSchema env m table).2.schemas := by
  cases hk : m.schema with
  | none =>
    rw [loadTableSchema_no_schema env m table (by simp [Handler.active, hk])]
    exact h
  | some k =>
    cases hs : m.schemas.lookup k with
    | none =>
      rw [loadTableSchema_no_schema env m table (by simp [Handler.active, hk, hs])]
      exact h
    | some s =>
      cases ht : s.Tables.lookup table with
      | some tbl =>
        rw [loadTableSchema_hit env m table k s tbl hk hs ht]
        exact h
      | none =>
        rw [loadTableSchema_miss env m table k s hk hs ht]
        split
        · exact h
        · exact CacheBuilt_cacheTable good _ k table _ (henv _ _) h

theorem handleSelect_schemas (env : Env) (m : Handler) (sql : String) (req : SqlSelect) :
    (handleSelect env m sql req).2.schemas = m.schemas ∨
      ∃ t, (handleSelect env m sql req).2.schemas = (loadTableSchema env m t).2.schemas := by
  unfold handleSelect
  split
  · exact Or.inl rfl
  · split
    · exact Or.inl rfl
    · split
      · exact Or.inl rfl
      · rename_i x src tl hfrom
        refine Or.inr ⟨ToLower env src.Name, ?_⟩
        simp only
        split
        · rename_i heq; rw [heq]
        · rename_i heq; rw [heq]
        · rename_i heq
          rw [heq]
          split
          · rfl
          · rfl
          · split
            · rfl
            · rfl
            · split
              · rfl
              · rfl
              · rfl

theorem handleDescribeTable_schemas (env : Env) (m : Handler) (sql Identity : String) :
    (handleDescribeTable env m sql Identity).2.schemas = m.schemas ∨
      ∃ t, (handleDescribeTable env m sql Identity).2.schemas =
        (loadTableSchema env m t).2.schemas := by
  unfold handleDescribeTable
  split
  · exact Or.inl rfl
  · refine Or.inr ⟨ToLower env Identity, ?_⟩
    simp only
    split
    · rename_i heq; rw [heq]
    · rename_i heq; rw [heq]
    · rename_i heq; rw [heq]; rfl

theorem handleShow_schemas (env : Env) (m : Handler) (sql Identity From : String) :
    (handleShow env m sql Identity From).2.schemas = m.schemas := by
  unfold handleShow
  simp only
  split <;> rfl

theorem handleSelectSysVariable_schemas (env : Env) (m : Handler) (sql : String)
    (stmt : SqlSelect) (sysVar : String) :
    (handleSelectSysVariable env m sql stmt sysVar).2.schemas = m.schemas := by
  unfold handleSelectSysVariable
  split <;> rfl

theorem handleQueryBody_schemas (env : Env) (m : Handler) (sql : String) :
    (handleQueryBody env m sql).2.schemas = m.schemas ∨
      ∃ t, (handleQueryBody env m sql).2.schemas = (loadTableSchema env m t).2.schemas := by
  unfold handleQueryBody
  split
  · exact Or.inl rfl
  · simp only
    split
    · exact Or.inl rfl
    · split
      · exact Or.inl rfl
      · exact Or.inl rfl
  · split
    · split
      · exact handleDescribeTable_schemas env m sql _
      · split <;> exact Or.inl rfl
    · simp only
      split
      · exact Or.inl (handleSelectSysVariable_schemas env m sql _ _)
      · exact handleSelect_schemas env m sql _
    · exact Or.inl (handleShow_schemas env m sql _ _)
    · exact Or.inl rfl

theorem handleQuery_schemas (env : Env) (m : Handler) (sql : String) :
    (handleQuery env m sql).2.schemas = m.schemas ∨
      ∃ t, (handleQuery env m sql).2.schemas = (loadTableSchema env m t).2.schemas := by
  unfold handleQuery
  split
  · split
    · rename_i heq
      have := handleQueryBody_schemas env m sql
      rw [heq] at this
      exact this
    · exact handleQueryBody_schemas env m sql
  · exact handleQueryBody_schemas env m sql

theorem chooseCommand_schemas (env : Env) (m : Handler) (req : Request) :
    (chooseCommand env m req).2.schemas = m.schemas ∨
      ∃ t, (chooseCommand env m req).2.schemas = (loadTableSchema env m t).2.schemas := by
  unfold chooseCommand
  split
  · exact Or.inl rfl
  · split
    · exact handleQuery_schemas env m _
    · split
      · exact Or.inl rfl
      · split
        · exact handleQuery_schemas env m _
        · split
          · exact Or.inl rfl
          · split
            · rename_i raw _ _ _ _ _
              unfold SchemaUse
              cases h : m.schemas.lookup raw <;> exact Or.inl rfl
            · exact Or.inl rfl

theorem Reachable.cacheBuilt (good : JsonHelper → Prop) (m : Handler)
    (h : Reachable good m) : CacheBuilt good m.schemas := by
  induction h with
  | init m h =>
    intro p hp q hq
    rw [h p hp] at hq
    simp at hq
  | step env m req _ henv ih =>
    rcases chooseCommand_schemas env m req with h | ⟨t, h⟩
    · rw [h]; exact ih
    · rw [h]; exact loadTableSchema_CacheBuilt good env m t henv ih


theorem loadTableSchema_built (good : JsonHelper → Prop) (env : Env) (m : Handler)
    (table : String) (tbl : Table) (m1 : Handler)
    (hm : CacheBuilt good m.schemas)
    (henv : ∀ url table, good (nativeProperties (env.JsonHelperHttp url).jh table))
    (h : loadTableSchema env m table = (.ok tbl, m1)) :
    ∃ name jh, good jh ∧ tbl = discover (NewTable name) jh := by
  cases hk : m.schema with
  | none =>
    rw [loadTableSchema_no_schema env m table (by simp [Handler.active, hk])] at h
    simp at h
  | some k =>
    cases hs : m.schemas.lookup k with
    | none =>
      rw [loadTableSchema_no_schema env m table (by simp [Handler.active, hk, hs])] at h
      simp at h
    | some s =>
      cases ht : s.Tables.lookup table with
      | some tbl0 =>
        rw [loadTableSchema_hit env m table k s tbl0 hk hs ht] at h
        simp only [Prod.mk.injEq, Ret.ok.injEq] at h
        obtain ⟨rfl, _⟩ := h
        exact hm (k, s) (lookup_mem _ _ _ hs) (table, tbl0) (lookup_mem _ _ _ ht)
      | none =>
        rw [loadTableSchema_miss env m table k s hk hs ht] at h
        split at h
        · simp at h
        · simp only [Prod.mk.injEq, Ret.ok.injEq] at h
          exact ⟨table, _, henv _ _, h.1.symm⟩

theorem discover_names (tbl : Table) (jh : JsonHelper) :
    (discover tbl jh).rowNames =
      tbl.rowNames ++ ["_id", "type", "_score"] ++ visitedNames jh "" ∧
    ((discover tbl jh).fieldNames).Perm
      (tbl.fieldNames ++ ["_id", "type", "_score"] ++ visitedNames jh "") := by
  obtain ⟨_, h2, h3⟩ := buildEsFields_names jh (seedPseudoColumns tbl) "" 0
  have hr : (seedPseudoColumns tbl).rowNames = tbl.rowNames ++ ["_id", "type", "_score"] := by
    simp [seedPseudoColumns, Table.rowNames, Table.AddValues, Table.AddField, rowName]
  have hf : (seedPseudoColumns tbl).fieldNames = tbl.fieldNames ++ ["_id", "type", "_score"] := by
    simp [seedPseudoColumns, Table.fieldNames, Table.AddValues, Table.AddField, NewField]
  rw [hr] at h2
  rw [hf] at h3
  exact ⟨h2, h3⟩

/-! ## Dot-joined names of distinct paths -/

theorem dotJoin_data_cons (a b : String) (r : List String) :
    (dotJoin (a :: b :: r)).data = a.data ++ '.' :: (dotJoin (b :: r)).data := by
  simp [dotJoin, String.data_append]

theorem dotfree_append_cancel (a b x y : List Char) (ha : '.' ∉ a) (hb : '.' ∉ b)
    (hx : x = [] ∨ ∃ t, x = '.' :: t) (hy : y = [] ∨ ∃ t, y = '.' :: t)
    (h : a ++ x = b ++ y) : a = b ∧ x = y := by
  induction a generalizing b with
  | nil =>
    cases b with
    | nil => exact ⟨rfl, by simpa using h⟩
    | cons d b1 =>
      exfalso
      simp only [List.nil_append, List.cons_append] at h
      rcases hx with rfl | ⟨t, rfl⟩
      · simp at h
      · simp only [List.cons.injEq] at h
        exact hb (by simp [← h.1])
  | cons c a1 ih =>
    cases b with
    | nil =>
      exfalso
      simp only [List.nil_append, List.cons_append] at h
      rcases hy with rfl | ⟨t, rfl⟩
      · simp at h
      · simp only [List.cons.injEq] at h
        exact ha (by simp [h.1])
    | cons d b1 =>
      simp only [List.cons_append, List.cons.injEq] at h
      obtain ⟨hcd, ht⟩ := h
      have := ih b1 (fun hm => ha (List.mem_cons_of_mem _ hm))
        (fun hm => hb (List.mem_cons_of_mem _ hm)) ht
      exact ⟨by rw [hcd, this.1], this.2⟩

theorem dotJoin_injective (p : List String) : ∀ q : List String, p ≠ [] → q ≠ [] →
    (∀ n ∈ p, '.' ∉ n.data) → (∀ n ∈ q, '.' ∉ n.data) → dotJoin p = dotJoin q → p = q := by
  induction p with
  | nil => intro q hp; exact absurd rfl hp
  | cons a p1 ih =>
    intro q _ hq hpd hqd h
    cases q with
    | nil => exact absurd rfl hq
    | cons b q1 =>
      have hd := congrArg String.data h
      have ha : '.' ∉ a.data := hpd a (by simp)
      have hb : '.' ∉ b.data := hqd b (by simp)
      cases p1 with
      | nil =>
        cases q1 with
        | nil =>
          simp only [dotJoin] at h
          rw [h]
        | cons b2 q2 =>
          exfalso
          rw [dotJoin_data_cons] at hd
          simp only [dotJoin] at hd
          have := dotfree_append_cancel a.data b.data [] ('.' :: (dotJoin (b2 :: q2)).data)
            ha hb (Or.inl rfl) (Or.inr ⟨_, rfl⟩) (by simpa using hd)
          simp at this
      | cons a2 p2 =>
        cases q1 with
        | nil =>
          exfalso
          rw [dotJoin_data_cons] at hd
          simp only [dotJoin] at hd
          have := dotfree_append_cancel a.data b.data ('.' :: (dotJoin (a2 :: p2)).data) []
            ha hb (Or.inr ⟨_, rfl⟩) (Or.inl rfl) (by simpa using hd)
          simp at this
        | cons b2 q2 =>
          rw [dotJoin_data_cons, dotJoin_data_cons] at hd
          have := dotfree_append_cancel a.data b.data _ _
            ha hb (Or.inr ⟨_, rfl⟩) (Or.inr ⟨_, rfl⟩) hd
          have hab : a = b := String.ext this.1
          have htl : dotJoin (a2 :: p2) = dotJoin (b2 :: q2) :=
            String.ext (by simpa using this.2)
          have := ih (b2 :: q2) (by simp) (by simp)
            (fun n hn => hpd n (List.mem_cons_of_mem _ hn))
            (fun n hn => hqd n (List.mem_cons_of_mem _ hn)) htl
          rw [hab, this]

theorem visitedNames_nodup (jh : JsonHelper) (h : PlainDescription jh) :
    (["_id", "type", "_score"] ++ visitedNames jh "").Nodup := by
  obtain ⟨hnd, hdot, hps⟩ := h
  have hne := visitedPaths_ne_nil jh
  refine List.Nodup.append (by decide) ?_ ?_
  · unfold visitedNames
    refine List.Nodup.map_on ?_ hnd
    intro x hx y hy hxy
    rw [String.empty_append, String.empty_append] at hxy
    exact dotJoin_injective x y (hne x hx) (hne y hy) (hdot x hx) (hdot y hy) hxy
  · intro n hn1 hn2
    unfold visitedNames at hn2
    obtain ⟨p, hp, rfl⟩ := List.mem_map.1 hn2
    rw [String.empty_append] at hn1
    have key : ∀ c : String, '.' ∉ c.data → dotJoin p = c → p = [c] := by
      intro c hc hpc
      exact dotJoin_injective p [c] (hne p hp) (by simp) (hdot p hp)
        (by intro n hn; simp only [List.mem_singleton] at hn; rw [hn]; exact hc)
        (by simpa [dotJoin] using hpc)
    simp only [List.mem_cons, List.mem_singleton, List.not_mem_nil, or_false] at hn1
    rcases hn1 with h1 | h1 | h1
    · exact (hps p hp).1 (key "_id" (by decide) h1)
    · exact (hps p hp).2.1 (key "type" (by decide) h1)
    · exact (hps p hp).2.2 (key "_score" (by decide) h1)

/-! ## A first resolution on a fresh session -/

theorem Helper_mappingReply (table indexType : String) (props : JsonHelper)
    (ht : plainKey table) :
    (mappingReply table indexType props).Helper (table ++ ".mappings") =
      [(indexType, .obj [("properties", .obj props)])] := by
  have hn : table ++ ".mappings" = table ++ "." ++ "mappings" := by
    rw [String.append_assoc]
    rfl
  unfold JsonHelper.Helper
  rw [hn, JsonHelper.Get_two _ table "mappings" ht plainKey_mappings]
  simp [mappingReply, List.lookup_cons, jsonEntry]

theorem nativeProperties_mappingReply (table indexType : String) (props : JsonHelper)
    (ht : plainKey table) (hi : plainKey indexType) (hne : indexType ≠ "_default_") :
    nativeProperties (mappingReply table indexType props) table = props := by
  unfold nativeProperties
  simp only [Helper_mappingReply table indexType props ht]
  have hk : (JsonHelper.Keys [(indexType, Json.obj [("properties", Json.obj props)])]
      |>.find? fun key => key != "_default_").getD "user" = indexType := by
    have hb : (indexType != "_default_") = true := by simpa using hne
    simp [JsonHelper.Keys, List.find?, hb]
  rw [hk, JsonHelper.Helper_plain _ indexType hi,
    JsonHelper.Helper_plain _ "properties" plainKey_properties]
  simp [List.lookup_cons, Json.helper]

theorem loadTableSchema_fresh (table indexType : String) (props : JsonHelper)
    (ht : plainKey table) (hi : plainKey indexType) (hne : indexType ≠ "_default_") :
    loadTableSchema (replyEnv (mappingReply table indexType props)) freshHandler table =
      (.ok (discover (NewTable table) props),
        (freshHandler.effect
          (.httpGet (esSchema.Address ++ "/" ++ table ++ "/_mapping"))).cacheTable "es" table
          (discover (NewTable table) props)) := by
  rw [loadTableSchema_miss _ freshHandler table "es" esSchema rfl rfl rfl]
  have hk : ¬ (((replyEnv (mappingReply table indexType props)).JsonHelperHttp
      (esSchema.Address ++ "/" ++ table ++ "/_mapping")).jh.Helper
        (table ++ ".mappings")).Keys.length < 1 := by
    have : ((replyEnv (mappingReply table indexType props)).JsonHelperHttp
      (esSchema.Address ++ "/" ++ table ++ "/_mapping")).jh =
        mappingReply table indexType props := rfl
    rw [this, Helper_mappingReply table indexType props ht]
    simp [JsonHelper.Keys]
  rw [if_neg hk]
  have hp : nativeProperties ((replyEnv (mappingReply table indexType props)).JsonHelperHttp
      (esSchema.Address ++ "/" ++ table ++ "/_mapping")).jh table = props :=
    nativeProperties_mappingReply table indexType props ht hi hne
  rw [hp]

theorem freshHandler_reachable (good : JsonHelper → Prop) : Reachable good freshHandler :=
  Reachable.init freshHandler (by simp [freshHandler, esSchema])

/-! ## C3: Field names within a table -/

/-- C3, as stated, fails: for a native description with a field named `type`, a
successful `loadTableSchema` returns a table with two Fields named `type`. -/
theorem native_type_field_repeats_pseudo_column :
    ∃ tbl m1, loadTableSchema docsEnv freshHandler "docs" = (.ok tbl, m1) ∧
      ¬ tbl.fieldNames.Nodup := by
  refine ⟨_, _, loadTableSchema_fresh "docs" "doc" typeProperties (by decide) (by decide)
    (by decide), ?_⟩
  simp +decide [Table.fieldNames, discover, typeProperties, buildEsFields, buildEsFieldsRange,
    seedPseudoColumns, NewTable, Table.AddField, Table.AddValues, Json.helper,
    JsonHelper.Keys, JsonHelper.Helper_plain, JsonHelper.StringAt_plain, List.lookup, NewField]

/-- C3, amended: in every session a client can reach, and for every table that a
successful `loadTableSchema` returns, Field names are unique within the table,
provided the native descriptions the backend gives have no top-level field named
`_id`, `type` or `_score` and no field name that contains `.` (and, being mappings,
no two fields with the same path). -/
theorem loadTableSchema_field_names_unique (env : Env) (m : Handler) (table : String)
    (tbl : Table) (m1 : Handler) (hm : Reachable PlainDescription m)
    (henv : ∀ url table, PlainDescription (nativeProperties (env.JsonHelperHttp url).jh table))
    (h : loadTableSchema env m table = (.ok tbl, m1)) :
    tbl.fieldNames.Nodup := by
  obtain ⟨name, jh, hg, rfl⟩ :=
    loadTableSchema_built PlainDescription env m table tbl m1 hm.cacheBuilt henv h
  have hp := (discover_names (NewTable name) jh).2
  rw [hp.nodup_iff]
  simpa [NewTable, Table.fieldNames] using visitedNames_nodup jh hg

theorem plainDescription_of_eval (jh : JsonHelper) (l : List (List String))
    (h : visitedPaths jh = l) (h1 : l.Nodup) (h2 : ∀ p ∈ l, ∀ n ∈ p, '.' ∉ n.data)
    (h3 : ∀ p ∈ l, p ≠ ["_id"] ∧ p ≠ ["type"] ∧ p ≠ ["_score"]) : PlainDescription jh := by
  unfold PlainDescription
  rw [h]
  exact ⟨h1, h2, h3⟩

theorem ordersProperties_plain : PlainDescription ordersProperties := by
  refine plainDescription_of_eval _ [["id"], ["customer"], ["customer", "name"]] ?_
    (by decide) (by decide) (by decide)
  simp +decide [visitedPaths, visitedPathsRange, ordersProperties, idDescr, customerDescr,
    Json.helper, JsonHelper.Keys, JsonHelper.Helper_plain, JsonHelper.StringAt_plain,
    List.lookup, leafTag]

theorem PlainDescription_nil : PlainDescription [] :=
  plainDescription_of_eval [] [] (by simp [visitedPaths, JsonHelper.Keys, visitedPathsRange])
    (by decide) (by decide) (by decide)

theorem AllObjects_str (good : JsonHelper → Prop) (s : String) :
    Json.AllObjects good (.str s) := by
  intro m h
  cases h

theorem AllObjects_obj (good : JsonHelper → Prop) (m : JsonHelper) (hm : good m)
    (hc : ∀ p ∈ m, Json.AllObjects good p.2) : Json.AllObjects good (.obj m) := by
  intro m2 h
  cases h with
  | here => exact hm
  | field k c _ _ hmem hin => exact hc (k, c) hmem m2 hin

/-- What `loadTableSchema` hands to discovery is empty or a mapping inside the reply
of the backend. -/
theorem nativeProperties_holds (reply : JsonHelper) (table : String) :
    nativeProperties reply table = [] ∨ reply.Holds (.obj (nativeProperties reply table)) := by
  unfold nativeProperties
  simp only
  generalize ((reply.Helper (table ++ ".mappings")).Keys.find? fun key =>
    key != "_default_").getD "user" = indexType
  rcases JsonHelper.Helper_holds reply (table ++ ".mappings") with h1 | h1
  · rw [h1, JsonHelper.Helper_nil, JsonHelper.Helper_nil]
    exact Or.inl rfl
  · rcases JsonHelper.Helper_holds (reply.Helper (table ++ ".mappings")) indexType with h2 | h2
    · rw [h2, JsonHelper.Helper_nil]
      exact Or.inl rfl
    · rcases JsonHelper.Helper_holds ((reply.Helper (table ++ ".mappings")).Helper indexType)
          "properties" with h3 | h3
      · exact Or.inl h3
      · exact Or.inr (JsonHelper.Holds.holds_trans _ _ _ h1 (JsonHelper.Holds.holds_trans _ _ _ h2 h3))

theorem nativeProperties_good (good : JsonHelper → Prop) (hnil : good []) (reply : JsonHelper)
    (h : ∀ p ∈ reply, Json.AllObjects good p.2) (table : String) :
    good (nativeProperties reply table) := by
  rcases nativeProperties_holds reply table with h0 | ⟨k, c, hmem, hin⟩
  · rw [h0]
    exact hnil
  · exact h (k, c) hmem _ hin

theorem ordersReply_plain :
    ∀ p ∈ mappingReply "orders" "order" ordersProperties,
      Json.AllObjects PlainDescription p.2 := by
  have ev : ∀ (jh : JsonHelper) (l : List (List String)), visitedPaths jh = l → l.Nodup →
      (∀ p ∈ l, ∀ n ∈ p, '.' ∉ n.data) →
      (∀ p ∈ l, p ≠ ["_id"] ∧ p ≠ ["type"] ∧ p ≠ ["_score"]) → PlainDescription jh :=
    plainDescription_of_eval
  have g1 : Json.AllObjects PlainDescription idDescr := by
    refine AllObjects_obj _ _ (ev _ [] ?_ (by decide) (by decide) (by decide)) ?_
    · simp +decide [visitedPaths, visitedPathsRange, Json.helper, JsonHelper.Keys,
        JsonHelper.Helper_plain, JsonHelper.StringAt_plain, List.lookup, leafTag]
    · intro p hp
      simp only [List.mem_singleton] at hp
      subst hp
      exact AllObjects_str _ _
  have g2 : Json.AllObjects PlainDescription (.obj [("type", .str "string")]) := by
    refine AllObjects_obj _ _ (ev _ [] ?_ (by decide) (by decide) (by decide)) ?_
    · simp +decide [visitedPaths, visitedPathsRange, Json.helper, JsonHelper.Keys,
        JsonHelper.Helper_plain, JsonHelper.StringAt_plain, List.lookup, leafTag]
    · intro p hp
      simp only [List.mem_singleton] at hp
      subst hp
      exact AllObjects_str _ _
  have g3 : Json.AllObjects PlainDescription
      (.obj [("name", .obj [("type", .str "string")])]) := by
    refine AllObjects_obj _ _ (ev _ [["name"]] ?_ (by decide) (by decide) (by decide)) ?_
    · simp +decide [visitedPaths, visitedPathsRange, Json.helper, JsonHelper.Keys,
        JsonHelper.Helper_plain, JsonHelper.StringAt_plain, List.lookup, leafTag]
    · intro p hp
      simp only [List.mem_singleton] at hp
      subst hp
      exact g2
  have g4 : Json.AllObjects PlainDescription customerDescr := by
    refine AllObjects_obj _ _ (ev _ [["properties"]] ?_ (by decide) (by decide) (by decide)) ?_
    · simp +decide [visitedPaths, visitedPathsRange, Json.helper, JsonHelper.Keys,
        JsonHelper.Helper_plain, JsonHelper.StringAt_plain, List.lookup, leafTag]
    · intro p hp
      simp only [List.mem_singleton] at hp
      subst hp
      exact g3
  have g5 : Json.AllObjects PlainDescription (.obj ordersProperties) := by
    refine AllObjects_obj _ _ ordersProperties_plain ?_
    intro p hp
    simp only [ordersProperties, List.mem_cons, List.mem_singleton, List.not_mem_nil,
      or_false] at hp
    rcases hp with rfl | rfl
    · exact g1
    · exact g4
  have g6 : Json.AllObjects PlainDescription (.obj [("properties", .obj ordersProperties)]) := by
    refine AllObjects_obj _ _ (ev _ [["properties"]] ?_ (by decide) (by decide) (by decide)) ?_
    · simp +decide [visitedPaths, visitedPathsRange, ordersProperties, idDescr, customerDescr,
        Json.helper, JsonHelper.Keys, JsonHelper.Helper_plain, JsonHelper.StringAt_plain,
        List.lookup, leafTag]
    · intro p hp
      simp only [List.mem_singleton] at hp
      subst hp
      exact g5
  have g7 : Json.AllObjects PlainDescription
      (.obj [("order", .obj [("properties", .obj ordersProperties)])]) := by
    refine AllObjects_obj _ _ (ev _
      [["order"], ["order", "id"], ["order", "customer"], ["order", "customer", "name"]] ?_
      (by decide) (by decide) (by decide)) ?_
    · simp +decide [visitedPaths, visitedPathsRange, ordersProperties, idDescr, customerDescr,
        Json.helper, JsonHelper.Keys, JsonHelper.Helper_plain, JsonHelper.StringAt_plain,
        List.lookup, leafTag]
    · intro p hp
      simp only [List.mem_singleton] at hp
      subst hp
      exact g6
  have g8 : Json.AllObjects PlainDescription
      (.obj [("mappings", .obj [("order", .obj [("properties", .obj ordersProperties)])])]) := by
    refine AllObjects_obj _ _ (ev _ [["mappings"]] ?_ (by decide) (by decide) (by decide)) ?_
    · simp +decide [visitedPaths, visitedPathsRange, ordersProperties, idDescr, customerDescr,
        Json.helper, JsonHelper.Keys, JsonHelper.Helper_plain, JsonHelper.StringAt_plain,
        List.lookup, leafTag]
    · intro p hp
      simp only [List.mem_singleton] at hp
      subst hp
      exact g7
  intro p hp
  simp only [mappingReply, List.mem_singleton] at hp
  subst hp
  exact g8

theorem ordersEnv_plain (url table : String) :
    PlainDescription (nativeProperties (ordersEnv.JsonHelperHttp url).jh table) :=
  nativeProperties_good PlainDescription PlainDescription_nil _ ordersReply_plain table

/-- The amended C3 at the first resolution of `orders` on a fresh session. -/
theorem loadTableSchema_field_names_unique_witness :
    (discover (NewTable "orders") ordersProperties).fieldNames.Nodup :=
  loadTableSchema_field_names_unique ordersEnv freshHandler "orders" _ _
    (freshHandler_reachable PlainDescription) ordersEnv_plain
    (loadTableSchema_fresh "orders" "order" ordersProperties (by decide) (by decide)
      (by decide))

/-! ## C4: a resolved table stays cached -/

theorem loadTableSchema_again (env env2 : Env) (m : Handler) (table : String) (tbl : Table)
    (m1 : Handler) (h : loadTableSchema env m table = (.ok tbl, m1)) :
    loadTableSchema env2 m1 table = (.ok tbl, m1) := by
  cases hk : m.schema with
  | none =>
    rw [loadTableSchema_no_schema env m table (by simp [Handler.active, hk])] at h
    simp at h
  | some k =>
    cases hs : m.schemas.lookup k with
    | none =>
      rw [loadTableSchema_no_schema env m table (by simp [Handler.active, hk, hs])] at h
      simp at h
    | some s =>
      cases ht : s.Tables.lookup table with
      | some tbl0 =>
        rw [loadTableSchema_hit env m table k s tbl0 hk hs ht] at h
        simp only [Prod.mk.injEq, Ret.ok.injEq] at h
        obtain ⟨rfl, rfl⟩ := h
        exact loadTableSchema_hit env2 m table k s tbl0 hk hs ht
      | none =>
        rw [loadTableSchema_miss env m table k s hk hs ht] at h
        split at h
        · simp at h
        · simp only [Prod.mk.injEq, Ret.ok.injEq] at h
          obtain ⟨h1, h2⟩ := h
          rw [h1] at h2
          subst h2
          refine loadTableSchema_hit env2 _ table k
            { s with Tables := mapSet s.Tables table tbl } tbl hk ?_ (lookup_mapSet _ _ _)
          simp only [Handler.cacheTable, Handler.effect]
          refine (lookup_map_update m.schemas k
            fun s0 => { s0 with Tables := mapSet s0.Tables table tbl }).trans ?_
          rw [hs]
          rfl

theorem loadTableSchema_fetches (env : Env) (m : Handler) (table : String) (tbl : Table)
    (m1 : Handler) (h : loadTableSchema env m table = (.ok tbl, m1)) :
    (m.cached table = none → m1.fetches = m.fetches + 1) ∧
    (m.cached table ≠ none → m1 = m) := by
  cases hk : m.schema with
  | none =>
    rw [loadTableSchema_no_schema env m table (by simp [Handler.active, hk])] at h
    simp at h
  | some k =>
    cases hs : m.schemas.lookup k with
    | none =>
      rw [loadTableSchema_no_schema env m table (by simp [Handler.active, hk, hs])] at h
      simp at h
    | some s =>
      have hc : m.cached table = s.Tables.lookup table := by
        simp [Handler.cached, Handler.active, hk, hs]
      cases ht : s.Tables.lookup table with
      | some tbl0 =>
        rw [loadTableSchema_hit env m table k s tbl0 hk hs ht] at h
        simp only [Prod.mk.injEq, Ret.ok.injEq] at h
        rw [hc, ht]
        exact ⟨fun hn => by simp at hn, fun _ => h.2.symm⟩
      | none =>
        rw [loadTableSchema_miss env m table k s hk hs ht] at h
        rw [hc, ht]
        split at h
        · simp at h
        · simp only [Prod.mk.injEq, Ret.ok.injEq] at h
          refine ⟨fun _ => ?_, fun hn => absurd rfl hn⟩
          rw [← h.2]
          simp [Handler.fetches, Handler.cacheTable, Handler.effect, Effect.isHttpGet,
            List.filter_append]

/-- C4: once `loadTableSchema(table)` has succeeded, every later
`loadTableSchema(table)` on the resulting state, whatever the backend then is,
returns that same Table and leaves the session as it is: no metadata request, the
same table cache.  So N >= 1 resolutions of one table name, the first of which
succeeds, all return that Table; they issue exactly one metadata fetch when the
table was not cached before, and none when it was (its fetch came earlier). -/
theorem loadTableSchema_at_most_once (env : Env) (m : Handler) (table : String)
    (tbl : Table) (m1 : Handler) (h : loadTableSchema env m table = (.ok tbl, m1)) :
    (∀ env2, loadTableSchema env2 m1 table = (.ok tbl, m1)) ∧
    (∀ envs, resolveAll m table (env :: envs) =
      (List.replicate (envs.length + 1) (.ok tbl), m1)) ∧
    (m.cached table = none → m1.fetches = m.fetches + 1) ∧
    (m.cached table ≠ none → m1 = m) := by
  have again := fun env2 => loadTableSchema_again env env2 m table tbl m1 h
  refine ⟨again, ?_, loadTableSchema_fetches env m table tbl m1 h⟩
  have rest : ∀ envs, resolveAll m1 table envs = (List.replicate envs.length (.ok tbl), m1) := by
    intro envs
    induction envs with
    | nil => rfl
    | cons e es ih =>
      simp only [resolveAll, again e, ih, List.length_cons, List.replicate_succ]
  intro envs
  simp only [resolveAll, h, rest envs, List.replicate_succ]

/-- C4 on a fresh session whose first resolution of `orders` finds the backend up:
every later resolution, under any backend, returns the same table, and the
resolutions issue one metadata fetch. -/
theorem loadTableSchema_at_most_once_witness :
    (∀ env2, loadTableSchema env2
        ((freshHandler.effect
          (.httpGet (esSchema.Address ++ "/" ++ "orders" ++ "/_mapping"))).cacheTable "es"
          "orders" (discover (NewTable "orders") ordersProperties)) "orders" =
      (.ok (discover (NewTable "orders") ordersProperties),
        (freshHandler.effect
          (.httpGet (esSchema.Address ++ "/" ++ "orders" ++ "/_mapping"))).cacheTable "es"
          "orders" (discover (NewTable "orders") ordersProperties))) ∧
    (∀ envs, resolveAll freshHandler "orders" (ordersEnv :: envs) =
      (List.replicate (envs.length + 1) (.ok (discover (NewTable "orders") ordersProperties)),
        (freshHandler.effect
          (.httpGet (esSchema.Address ++ "/" ++ "orders" ++ "/_mapping"))).cacheTable "es"
          "orders" (discover (NewTable "orders") ordersProperties))) ∧
    (freshHandler.cached "orders" = none →
      ((freshHandler.effect
          (.httpGet (esSchema.Address ++ "/" ++ "orders" ++ "/_mapping"))).cacheTable "es"
          "orders" (discover (NewTable "orders") ordersProperties)).fetches =
        freshHandler.fetches + 1) ∧
    (freshHandler.cached "orders" ≠ none →
      (freshHandler.effect
          (.httpGet (esSchema.Address ++ "/" ++ "orders" ++ "/_mapping"))).cacheTable "es"
          "orders" (discover (NewTable "orders") ordersProperties) = freshHandler) :=
  loadTableSchema_at_most_once ordersEnv freshHandler "orders" _ _
    (loadTableSchema_fresh "orders" "order" ordersProperties (by decide) (by decide)
      (by decide))


theorem discover_orders_names :
    (discover (NewTable "orders") ordersProperties).rowNames =
        ["_id", "type", "_score", "id", "customer", "customer.name"] ∧
      (discover (NewTable "orders") ordersProperties).fieldNames =
        ["_id", "type", "_score", "id", "customer.name", "customer"] := by
  constructor <;>
  simp +decide [Table.rowNames, Table.fieldNames, rowName, discover, ordersProperties, idDescr,
    customerDescr, buildEsFields, buildEsFieldsRange, seedPseudoColumns, NewTable,
    Table.AddField, Table.AddValues, Json.helper, JsonHelper.Keys, JsonHelper.Helper_plain,
    JsonHelper.StringAt_plain, List.lookup, NewField]


/-! ## C5: the number of DESCRIBE rows -/

theorem discover_orders_lengths :
    (discover (NewTable "orders") ordersProperties).DescribeValues.length = 6 ∧
      (discover (NewTable "orders") ordersProperties).Fields.length = 6 := by
  have hr := congrArg List.length discover_orders_names.1
  have hf := congrArg List.length discover_orders_names.2
  rw [Table.rowNames, List.length_map] at hr
  rw [Table.fieldNames, List.length_map] at hf
  exact ⟨hr, hf⟩

theorem DescribeResultset_Rows (tbl : Table) : tbl.DescribeResultset.Rows = tbl.DescribeValues :=
  rfl

/-- C5, as stated, fails: the table `orders` of the specification has six Fields and
six DESCRIBE rows, not nine. -/
theorem orders_describe_rows_are_not_fields_plus_three :
    ∃ tbl m1, loadTableSchema ordersEnv freshHandler "orders" = (.ok tbl, m1) ∧
      tbl.DescribeResultset.Rows.length ≠ tbl.Fields.length + 3 := by
  refine ⟨_, _, loadTableSchema_fresh "orders" "order" ordersProperties (by decide) (by decide)
    (by decide), ?_⟩
  rw [DescribeResultset_Rows, discover_orders_lengths.1, discover_orders_lengths.2]
  decide

/-- C5, amended: in every session a client can reach, and for every table that a
successful `loadTableSchema` returns, the number of rows of its DESCRIBE output
equals `len(table.Fields)`: the three pseudo-columns are among the Fields. -/
theorem describe_rows_count (env : Env) (m : Handler) (table : String) (tbl : Table)
    (m1 : Handler) (hm : Reachable (fun _ => True) m)
    (h : loadTableSchema env m table = (.ok tbl, m1)) :
    tbl.DescribeResultset.Rows.length = tbl.Fields.length ∧ 3 ≤ tbl.Fields.length := by
  obtain ⟨name, jh, _, rfl⟩ :=
    loadTableSchema_built (fun _ => True) env m table tbl m1 hm.cacheBuilt
      (fun _ _ => trivial) h
  obtain ⟨h1, h2⟩ := discover_names (NewTable name) jh
  have hr := congrArg List.length h1
  have hf := h2.length_eq
  rw [Table.rowNames, List.length_map] at hr
  rw [Table.fieldNames, List.length_map] at hf
  have e1 : (NewTable name).rowNames = [] := rfl
  have e2 : (NewTable name).fieldNames = [] := rfl
  rw [e1] at hr
  rw [e2] at hf
  simp only [List.nil_append, List.length_append, List.length_cons, List.length_nil] at hr hf
  rw [DescribeResultset_Rows, hr, hf]
  omega

/-- The amended C5 at the first resolution of `orders` on a fresh session. -/
theorem describe_rows_count_witness :
    (discover (NewTable "orders") ordersProperties).DescribeResultset.Rows.length =
        (discover (NewTable "orders") ordersProperties).Fields.length ∧
      3 ≤ (discover (NewTable "orders") ordersProperties).Fields.length :=
  describe_rows_count ordersEnv freshHandler "orders" _ _
    (freshHandler_reachable fun _ => True)
    (loadTableSchema_fresh "orders" "order" ordersProperties (by decide) (by decide)
      (by decide))

/-! ## C6: the order of the DESCRIBE rows -/

/-- C6 at the table `orders` of the specification: the fifth DESCRIBE row is
`customer` and the fifth Field is `customer.name`, because `buildEsFields` adds the
row of a container before it descends and its Field after. -/
theorem orders_describe_rows_out_of_field_order :
    ∃ tbl m1, loadTableSchema ordersEnv freshHandler "orders" = (.ok tbl, m1) ∧
      tbl.rowNames = ["_id", "type", "_score", "id", "customer", "customer.name"] ∧
      tbl.fieldNames = ["_id", "type", "_score", "id", "customer.name", "customer"] ∧
      tbl.rowNames[4]? ≠ tbl.fieldNames[4]? := by
  refine ⟨_, _, loadTableSchema_fresh "orders" "order" ordersProperties (by decide) (by decide)
    (by decide),
    discover_orders_names.1, discover_orders_names.2, ?_⟩
  rw [discover_orders_names.1, discover_orders_names.2]
  decide

/-! ## C7: a SELECT with two or more table sources -/

theorem connResult_ne_fault (env : Env) (e : String) : env.connResult ≠ .fault e := by
  unfold Env.connResult
  cases env.connErr <;> simp

theorem handleQuery_of_no_fault (env : Env) (m : Handler) (sql : String)
    (h : ∀ e, (handleQueryBody env m sql).1 ≠ .fault e) :
    handleQuery env m sql = handleQueryBody env m sql := by
  unfold handleQuery
  split
  · split
    · rename_i e m1 heq
      exact absurd (congrArg Prod.fst heq) (h e)
    · rfl
  · rfl

theorem handleQueryBody_sysvar (env : Env) (m : Handler) (sql : String) (req : SqlSelect)
    (hp : env.ParseSql sql = .ok (.SqlSelect req)) (hs : req.SysVariable.length > 0) :
    handleQueryBody env m sql = handleSelectSysVariable env m sql req req.SysVariable := by
  unfold handleQueryBody
  rw [hp]
  simp only [hs, if_true]

theorem handleQueryBody_select (env : Env) (m : Handler) (sql : String) (req : SqlSelect)
    (hp : env.ParseSql sql = .ok (.SqlSelect req)) (hs : req.SysVariable = "") :
    handleQueryBody env m sql = handleSelect env m sql req := by
  unfold handleQueryBody
  rw [hp]
  have : ¬ req.SysVariable.length > 0 := by rw [hs]; decide
  simp only [this, if_false]

/-- C7, as stated, fails: a parsed SELECT with two table sources whose
`SysVariable()` is not empty is answered by `handleSelectSysVariable`, with a
result set and no error. -/
theorem sysvar_select_with_two_sources_is_answered :
    2 ≤ sysVarJoin.From.length ∧
    (parsedEnv (.SqlSelect sysVarJoin)).ParseSql "select @@max_allowed_packet from a, b" =
      .ok (.SqlSelect sysVarJoin) ∧
    handleQuery (parsedEnv (.SqlSelect sysVarJoin)) freshHandler
        "select @@max_allowed_packet from a, b" =
      (.ok (), freshHandler.effect (.WriteResultset { Fields := [], Rows := [] })) := by
  refine ⟨by decide, rfl, ?_⟩
  have hb := handleQueryBody_sysvar (parsedEnv (.SqlSelect sysVarJoin)) freshHandler
    "select @@max_allowed_packet from a, b" sysVarJoin rfl (by decide)
  have hr : handleSelectSysVariable (parsedEnv (.SqlSelect sysVarJoin)) freshHandler
      "select @@max_allowed_packet from a, b" sysVarJoin sysVarJoin.SysVariable =
      (.ok (), freshHandler.effect (.WriteResultset { Fields := [], Rows := [] })) := rfl
  rw [handleQuery_of_no_fault, hb, hr]
  intro e
  rw [hb, hr]
  intro h
  cases h

theorem handleSelect_join (env : Env) (m : Handler) (sql : String) (req : SqlSelect)
    (hfrom : 2 ≤ req.From.length) :
    handleSelect env m sql req =
      (.error (.errorString
        (if m.active.isSome then "join not implemented" else "no schema in use")), m) := by
  unfold handleSelect
  cases ha : m.active with
  | none => simp
  | some s =>
    have : req.From.length > 1 := by omega
    simp [this]

/-- C7, amended: for every session state and every parsed SELECT statement whose
From list has two or more table sources and whose `SysVariable()` is empty,
`handleQuery` returns an error (`join not implemented`, or `no schema in use` when no
schema is active) and leaves the session as it is: no table resolution, no query
translation, no result-set write.  `handleSelect` does so for every SELECT with two
or more table sources. -/
theorem select_join_rejected (env : Env) (m : Handler) (sql : String) (req : SqlSelect)
    (hfrom : 2 ≤ req.From.length) :
    handleSelect env m sql req =
      (.error (.errorString
        (if m.active.isSome then "join not implemented" else "no schema in use")), m) ∧
    (env.ParseSql sql = .ok (.SqlSelect req) → req.SysVariable = "" →
      handleQuery env m sql =
        (.error (.errorString
          (if m.active.isSome then "join not implemented" else "no schema in use")), m)) := by
  refine ⟨handleSelect_join env m sql req hfrom, ?_⟩
  intro hp hsys
  have hb := handleQueryBody_select env m sql req hp hsys
  rw [handleQuery_of_no_fault, hb, handleSelect_join env m sql req hfrom]
  intro e
  rw [hb, handleSelect_join env m sql req hfrom]
  intro h
  cases h

/-- The amended C7 at `SELECT * FROM a, b` on a fresh session. -/
theorem select_join_rejected_witness :
    handleQuery (parsedEnv (.SqlSelect plainJoin)) freshHandler "select * from a, b" =
      (.error (.errorString "join not implemented"), freshHandler) :=
  (select_join_rejected (parsedEnv (.SqlSelect plainJoin)) freshHandler "select * from a, b"
    plainJoin (by decide)).2 rfl rfl

/-! ## C8: the two session-setup statements -/

theorem ToLower_append (env : Env) (a b : String) :
    ToLower env (a ++ b) = ToLower env a ++ ToLower env b := by
  apply String.ext
  simp only [ToLower, String.data_append, List.map_append]

theorem Contains_middle (pre mid post sub rest : String) (h : mid = sub ++ rest) :
    Contains (pre ++ mid ++ post) sub := by
  subst h
  refine ⟨pre.data, rest.data ++ post.data, ?_⟩
  simp only [String.data_append, List.append_assoc]

theorem handleQueryBody_rejected (env : Env) (m : Handler) (sql : String) (err : GoError)
    (hp : env.ParseSql sql = .error err) :
    handleQueryBody env m sql =
      if Contains (ToLower env sql) "set autocommit" ∨
          Contains (ToLower env sql) "set session transaction isolation" then
        (env.connResult, m.effect .WriteOK)
      else (.error err, m) := by
  unfold handleQueryBody
  rw [hp]
  simp only [Handler.WriteOK]
  by_cases h1 : Contains (ToLower env sql) "set autocommit"
  · rw [if_pos h1, if_pos (Or.inl h1)]
  · rw [if_neg h1]
    by_cases h2 : Contains (ToLower env sql) "set session transaction isolation"
    · rw [if_pos h2, if_pos (Or.inr h2)]
    · rw [if_neg h2, if_neg (fun h => h.elim h1 h2)]

theorem handleQuery_rejected (env : Env) (m : Handler) (sql : String) (err : GoError)
    (hp : env.ParseSql sql = .error err) :
    handleQuery env m sql =
      if Contains (ToLower env sql) "set autocommit" ∨
          Contains (ToLower env sql) "set session transaction isolation" then
        (env.connResult, m.effect .WriteOK)
      else (.error err, m) := by
  rw [← handleQueryBody_rejected env m sql err hp]
  apply handleQuery_of_no_fault
  intro e
  rw [handleQueryBody_rejected env m sql err hp]
  split
  · exact connResult_ne_fault env e
  · intro h
    cases h

/-- C8: for every SQL text that the parser rejects, `handleQuery` writes an OK
response, and returns what the write returns instead of the parse error, if and
only if the lower-cased text contains `set autocommit` or
`set session transaction isolation`; for every other rejected text it writes
nothing and returns the error of the parser unchanged.  In particular
`SET autocommit=1` and `SET SESSION TRANSACTION ISOLATION LEVEL REPEATABLE READ`, in
any letter case (`body`) and with any text, such as whitespace, before and after
(`pre`, `post`), yield OK. -/
theorem handleQuery_session_setup (env : Env) (m : Handler) (sql : String) (err : GoError)
    (hp : env.ParseSql sql = .error err) :
    ((Contains (ToLower env sql) "set autocommit" ∨
        Contains (ToLower env sql) "set session transaction isolation") →
      handleQuery env m sql = (env.connResult, m.effect .WriteOK)) ∧
    (¬ (Contains (ToLower env sql) "set autocommit" ∨
        Contains (ToLower env sql) "set session transaction isolation") →
      handleQuery env m sql = (.error err, m)) ∧
    ((handleQuery env m sql).2.effects = m.effects ++ [.WriteOK] ↔
      (Contains (ToLower env sql) "set autocommit" ∨
        Contains (ToLower env sql) "set session transaction isolation")) ∧
    (∀ pre body post, sql = pre ++ body ++ post →
      (ToLower env body = "set autocommit=1" ∨
        ToLower env body = "set session transaction isolation level repeatable read") →
      handleQuery env m sql = (env.connResult, m.effect .WriteOK)) := by
  have hq := handleQuery_rejected env m sql err hp
  have yes : (Contains (ToLower env sql) "set autocommit" ∨
        Contains (ToLower env sql) "set session transaction isolation") →
      handleQuery env m sql = (env.connResult, m.effect .WriteOK) := by
    intro hc
    rw [hq, if_pos hc]
  have no : ¬ (Contains (ToLower env sql) "set autocommit" ∨
        Contains (ToLower env sql) "set session transaction isolation") →
      handleQuery env m sql = (.error err, m) := by
    intro hc
    rw [hq, if_neg hc]
  refine ⟨yes, no, ⟨?_, ?_⟩, ?_⟩
  · intro he
    by_contra hc
    rw [no hc] at he
    have hl := congrArg List.length he
    simp only [List.length_append, List.length_cons, List.length_nil] at hl
    omega
  · intro hc
    rw [yes hc]
    rfl
  · intro pre body post hsql hbody
    apply yes
    rw [hsql, ToLower_append, ToLower_append]
    rcases hbody with hb | hb
    · exact Or.inl (Contains_middle _ _ _ _ "=1" (by rw [hb]; decide))
    · exact Or.inr (Contains_middle _ _ _ _ " level repeatable read" (by rw [hb]; decide))

theorem ToLower_SET_autocommit :
    ToLower (replyEnv []) "SET AutoCommit=1" = "set autocommit=1" := by
  decide

theorem Contains_dotted_capital :
    Contains (ToLower (replyEnv []) "SET AUTOCOMMİT=1") "set autocommit" := by
  decide

/-- C8 at the rejected text `SET AutoCommit=1` with blanks around it, and at the
rejected text `SET AUTOCOMMİT=1`, whose capital I with a dot the case table of Go
sends to `i`. -/
theorem handleQuery_session_setup_witness :
    handleQuery (replyEnv []) freshHandler ("  " ++ "SET AutoCommit=1" ++ " ") =
        (.ok (), freshHandler.effect .WriteOK) ∧
      handleQuery (replyEnv []) freshHandler "SET AUTOCOMMİT=1" =
        (.ok (), freshHandler.effect .WriteOK) :=
  ⟨(handleQuery_session_setup (replyEnv []) freshHandler ("  " ++ "SET AutoCommit=1" ++ " ")
      (.errorString "syntax error") rfl).2.2.2 "  " "SET AutoCommit=1" " " rfl
      (Or.inl ToLower_SET_autocommit),
    (handleQuery_session_setup (replyEnv []) freshHandler "SET AUTOCOMMİT=1"
      (.errorString "syntax error") rfl).1 (Or.inl Contains_dotted_capital)⟩

/-! ## C9: the recovery boundary -/

theorem handleSelect_no_source (env : Env) (m : Handler) (sql : String) (req : SqlSelect)
    (s : Schema) (ha : m.active = some s) (hfrom : req.From = []) :
    handleSelect env m sql req = (.fault indexOutOfRange, m) := by
  unfold handleSelect
  rw [ha]
  simp only [hfrom, List.length_nil]
  rfl

/-- C9: when the recovery boundary is enabled (`conf.SupressRecover` is false), for
every SQL text and every session state `handleQuery` never comes back with a fault:
it returns success or an ordinary error.  In particular, for a parsed SELECT with an
active schema, no system variable and an empty From list, where `handleSelect`
indexes `req.From[0]`, it returns the error `handle query <sql> error <fault>` and
leaves the session as it is. -/
theorem handleQuery_recovers (env : Env) (m : Handler) (sql : String)
    (hrec : m.conf.SupressRecover = false) :
    (∀ e, (handleQuery env m sql).1 ≠ .fault e) ∧
    (∀ req s, env.ParseSql sql = .ok (.SqlSelect req) → m.active = some s →
      req.SysVariable = "" → req.From = [] →
      handleQuery env m sql =
        (.error (.errorString ("handle query " ++ sql ++ " error " ++ indexOutOfRange)), m)) := by
  constructor
  · intro e
    unfold handleQuery
    rw [hrec]
    simp only [Bool.not_false, if_true]
    split
    · intro h
      cases h
    · rename_i hr
      intro h
      exact hr e (handleQueryBody env m sql).2 (Prod.ext h rfl)
  · intro req s hp ha hsys hfrom
    have hb : handleQueryBody env m sql = (.fault indexOutOfRange, m) := by
      rw [handleQueryBody_select env m sql req hp hsys]
      exact handleSelect_no_source env m sql req s ha hfrom
    unfold handleQuery
    rw [hrec, hb]
    rfl

/-- C9 at a parsed SELECT without a table source, on a fresh session. -/
theorem handleQuery_recovers_witness :
    (∀ e, (handleQuery (parsedEnv (.SqlSelect noSource)) freshHandler "select 1").1 ≠
      .fault e) ∧
    handleQuery (parsedEnv (.SqlSelect noSource)) freshHandler "select 1" =
      (.error (.errorString ("handle query " ++ "select 1" ++ " error " ++ indexOutOfRange)),
        freshHandler) :=
  ⟨(handleQuery_recovers (parsedEnv (.SqlSelect noSource)) freshHandler "select 1" rfl).1,
    (handleQuery_recovers (parsedEnv (.SqlSelect noSource)) freshHandler "select 1" rfl).2
      noSource esSchema rfl rfl rfl rfl⟩

/-! ## C10: InitDB -/

/-- C10: for every session state and every InitDB payload naming `db`: if `db` is a
key of the configured schemas, `chooseCommand` sets the active schema to that schema
and writes OK; if it is not, `chooseCommand` returns the error
`Schema not found <db>`, writes nothing, and leaves the active schema and the
schemas as they are. -/
theorem chooseCommand_init_db (env : Env) (m : Handler) (db : String) :
    (∀ s, m.schemas.lookup db = some s →
      chooseCommand env m (.packet COM_INIT_DB db) =
          (env.connResult, ({ m with schema := some db } : Handler).effect .WriteOK) ∧
        (chooseCommand env m (.packet COM_INIT_DB db)).2.active = some s ∧
        (chooseCommand env m (.packet COM_INIT_DB db)).2.schemas = m.schemas) ∧
    (m.schemas.lookup db = none →
      chooseCommand env m (.packet COM_INIT_DB db) =
        (.error (.errorString ("Schema not found " ++ db)), m)) := by
  have hc : chooseCommand env m (.packet COM_INIT_DB db) =
      match SchemaUse m db with
      | (none, m) => (.error (.errorString ("Schema not found " ++ db)), m)
      | (some _, m) => m.WriteOK env := by
    simp [chooseCommand, COM_INIT_DB, COM_QUERY, COM_PING, COM_STMT_PREPARE, COM_QUIT]
  constructor
  · intro s hs
    have hu : SchemaUse m db = (some s, { m with schema := some db }) := by
      simp only [SchemaUse, hs]
    rw [hc, hu]
    refine ⟨rfl, ?_, rfl⟩
    simp only [Handler.WriteOK, Handler.effect, Handler.active, Option.bind]
    exact hs
  · intro hs
    have hu : SchemaUse m db = (none, m) := by
      simp only [SchemaUse, hs]
    rw [hc, hu]

/-- C10 on a fresh session, at the configured schema `es` and at the unknown schema
`nope`. -/
theorem chooseCommand_init_db_witness :
    chooseCommand (replyEnv []) freshHandler (.packet COM_INIT_DB "es") =
        (.ok (), ({ freshHandler with schema := some "es" } : Handler).effect .WriteOK) ∧
      chooseCommand (replyEnv []) freshHandler (.packet COM_INIT_DB "nope") =
        (.error (.errorString ("Schema not found " ++ "nope")), freshHandler) :=
  ⟨((chooseCommand_init_db (replyEnv []) freshHandler "es").1 esSchema rfl).1,
    (chooseCommand_init_db (replyEnv []) freshHandler "nope").2 rfl⟩

/-! ## C11: DESCRIBE rows and Fields, up to order -/

/-- C11: in every session a client can reach, whatever the native descriptions and
the traversal orders, after a successful `loadTableSchema` the names in the first
column of the DESCRIBE rows of the table are a permutation of the names of its
Fields; in particular the number of descriptive rows equals the number of Fields. -/
theorem describe_rows_permute_fields (env : Env) (m : Handler) (table : String)
    (tbl : Table) (m1 : Handler) (hm : Reachable (fun _ => True) m)
    (h : loadTableSchema env m table = (.ok tbl, m1)) :
    tbl.rowNames.Perm tbl.fieldNames ∧ tbl.DescribeValues.length = tbl.Fields.length := by
  obtain ⟨name, jh, _, rfl⟩ :=
    loadTableSchema_built (fun _ => True) env m table tbl m1 hm.cacheBuilt
      (fun _ _ => trivial) h
  obtain ⟨h1, h2⟩ := discover_names (NewTable name) jh
  have e1 : (NewTable name).rowNames = (NewTable name).fieldNames := rfl
  rw [e1] at h1
  have hperm : (discover (NewTable name) jh).rowNames.Perm
      (discover (NewTable name) jh).fieldNames := by
    rw [h1]
    exact h2.symm
  refine ⟨hperm, ?_⟩
  have hl := hperm.length_eq
  rw [Table.rowNames, Table.fieldNames, List.length_map, List.length_map] at hl
  exact hl

/-- C11 at the first resolution of `orders` on a fresh session. -/
theorem describe_rows_permute_fields_witness :
    (discover (NewTable "orders") ordersProperties).rowNames.Perm
        (discover (NewTable "orders") ordersProperties).fieldNames ∧
      (discover (NewTable "orders") ordersProperties).DescribeValues.length =
        (discover (NewTable "orders") ordersProperties).Fields.length :=
  describe_rows_permute_fields ordersEnv freshHandler "orders" _ _
    (freshHandler_reachable fun _ => True)
    (loadTableSchema_fresh "orders" "order" ordersProperties (by decide) (by decide)
      (by decide))

end Dataux
